import Mathlib

/-!
WaterLog.

A shallow embedding of `src/src/waterlog.hpp` (the `WaterLog` ring buffer
with its CSV dump and its SPIFFS persistence) and of the parts of
`src/src/main.cpp` that feed it (the line accumulator of the session loop, the
`set` handler and the probe scan), followed by theorems about the embedded
code.

Machine integers are natural numbers (or integers, for the signed `time_t`)
with the wrap-around of the C++ type written out as `% 256`.
-/

namespace WaterGenie

/-! ## Data model -/

/-- One byte of a file on the flash file system. -/
abbrev Byte := Fin 256

/-- Platform description for `struct Entry`: the source fixes the two fields
but not the widths of `time_t` and `unsigned long`, nor the alignment padding
the compiler adds; they are taken as parameters, counted in bytes. -/
structure Layout where
  timeBytes : Nat
  ulongBytes : Nat
  padBytes : Nat
deriving DecidableEq, Repr

/-- The `static const uint8_t CAPACITY = 100`. -/
def CAPACITY : Nat := 100

/-- The `struct Entry`: `timestamp` is the signed `time_t`, `level` the
`unsigned long`. `padding` is the content of the bytes of the struct that
belong to neither field, read as a little-endian number: assignments to the
two fields leave it alone, whole-struct copies and raw writes carry it along. -/
structure Entry where
  timestamp : Int
  level : Nat
  padding : Nat
deriving DecidableEq, Repr

/-- The class `WaterLog`: `buffer` is the array `Entry buffer[CAPACITY]`
(slot `i` for `i < CAPACITY`; larger arguments stand for memory past the end
of the array), `head`, `tail` and `count` are the three `uint8_t` members. -/
structure WaterLog where
  buffer : Nat → Entry
  head : Nat
  tail : Nat
  count : Nat

namespace WaterLog

/-- The constructor `WaterLog() : head(0), tail(0), count(0) {}`; it does not
touch `buffer`, whose content `mem` is whatever the storage held. -/
def new (mem : Nat → Entry) : WaterLog :=
  { buffer := mem, head := 0, tail := 0, count := 0 }

/-- The method `add(ts, lvl)`: the two field assignments to `buffer[head]`,
then `head = (head + 1) % CAPACITY` (computed in `int`, stored in a
`uint8_t`), then `++count` or the advance of `tail`. -/
def add (w : WaterLog) (ts : Int) (lvl : Nat) : WaterLog :=
  let slot := w.buffer w.head
  let buffer := Function.update w.buffer w.head { slot with timestamp := ts, level := lvl }
  let head := ((w.head + 1) % CAPACITY) % 256
  if w.count < CAPACITY then
    { buffer := buffer, head := head, tail := w.tail, count := (w.count + 1) % 256 }
  else
    { buffer := buffer, head := head, tail := ((w.tail + 1) % CAPACITY) % 256, count := w.count }

/-- The method `get(idx, out)`: the returned pair is the `bool` result and the
content of the reference parameter `out` after the call. -/
def get (w : WaterLog) (idx : Nat) (out : Entry) : Bool × Entry :=
  if idx ≥ w.count then (false, out)
  else
    let pos := ((w.tail + idx) % CAPACITY) % 256
    (true, w.buffer pos)

/-- The method `size()`. -/
def size (w : WaterLog) : Nat := w.count

/-- The method `clear()`. -/
def clear (w : WaterLog) : WaterLog :=
  { buffer := w.buffer, head := 0, tail := 0, count := 0 }

end WaterLog

/-- A call of one of the in-memory methods of `WaterLog`. -/
inductive Call where
  | add (ts : Int) (lvl : Nat)
  | get (idx : Nat) (out : Entry)
  | size
  | clear

/-- What a call hands back to its caller. -/
inductive Reply where
  | done
  | got (ok : Bool) (out : Entry)
  | sized (n : Nat)
deriving DecidableEq, Repr

/-- One method call as a step on the object: the state after the call and the
reply. The `const` methods `get` and `size` hand the object back as it was. -/
def WaterLog.call (w : WaterLog) : Call → WaterLog × Reply
  | .add ts lvl => (w.add ts lvl, .done)
  | .get idx out => (w, .got (w.get idx out).1 (w.get idx out).2)
  | .size => (w, .sized w.size)
  | .clear => (w.clear, .done)

/-- The index invariant of the data model: `count ≤ CAPACITY`, and `head` and
`tail` are indices into the array. -/
def WaterLog.Bounded (w : WaterLog) : Prop :=
  w.count ≤ CAPACITY ∧ w.head < CAPACITY ∧ w.tail < CAPACITY

instance (w : WaterLog) : Decidable w.Bounded := by
  unfold WaterLog.Bounded; infer_instance

/-! ## Raw encoding of the members -/

/-- The low byte of a number: what a `uint8_t` holds of it. -/
def toByte (n : Nat) : Byte := ⟨n % 256, Nat.mod_lt n (by decide)⟩

/-- The `k` bytes of an unsigned scalar in memory, least significant first. -/
def toLE : Nat → Nat → List Byte
  | 0, _ => []
  | k + 1, n => toByte n :: toLE k (n / 256)

/-- The unsigned scalar that a run of bytes holds, least significant first. -/
def ofLE : List Byte → Nat
  | [] => 0
  | b :: bs => b.val + 256 * ofLE bs

/-- The bit pattern (two's complement, as an unsigned number below `m`) of a
signed scalar of a type with `m` values. -/
def toUnsigned (m : Nat) (z : Int) : Nat := (z % (m : Int)).toNat

/-- The signed scalar that the bit pattern `u` of a type with `m` values holds. -/
def toSigned (m u : Nat) : Int := if 2 * u < m then (u : Int) else (u : Int) - (m : Int)

/-- The value `sizeof(Entry)`. -/
def Layout.sizeofEntry (L : Layout) : Nat := L.timeBytes + L.ulongBytes + L.padBytes

/-- The value `sizeof(buffer)`. -/
def Layout.sizeofBuffer (L : Layout) : Nat := CAPACITY * L.sizeofEntry

/-- The `expectedSize` of `loadFromSpiffs`:
`sizeof(head) + sizeof(tail) + sizeof(count) + sizeof(buffer)`. -/
def Layout.expectedSize (L : Layout) : Nat := 1 + 1 + 1 + L.sizeofBuffer

/-- The bytes of one `Entry` in memory: `timestamp`, then `level`, then the
padding. -/
def encodeEntry (L : Layout) (e : Entry) : List Byte :=
  toLE L.timeBytes (toUnsigned (256 ^ L.timeBytes) e.timestamp)
    ++ toLE L.ulongBytes e.level ++ toLE L.padBytes e.padding

/-- The `Entry` that `sizeof(Entry)` bytes of memory hold. -/
def decodeEntry (L : Layout) (bs : List Byte) : Entry :=
  { timestamp := toSigned (256 ^ L.timeBytes) (ofLE (bs.take L.timeBytes))
    level := ofLE ((bs.drop L.timeBytes).take L.ulongBytes)
    padding := ofLE ((bs.drop (L.timeBytes + L.ulongBytes)).take L.padBytes) }

/-- The bytes of the first `n` slots of the array, in order: with
`n = CAPACITY` this is what `(const uint8_t *)buffer` points at. -/
def rawBuffer (L : Layout) (buf : Nat → Entry) : Nat → List Byte
  | 0 => []
  | n + 1 => rawBuffer L buf n ++ encodeEntry L (buf n)

/-- The values a field of the given types can hold: `time_t` is signed,
`unsigned long` and the padding bytes are unsigned. -/
def EntryOk (L : Layout) (e : Entry) : Prop :=
  -((256 : Int) ^ L.timeBytes) ≤ 2 * e.timestamp ∧ 2 * e.timestamp < (256 : Int) ^ L.timeBytes
    ∧ e.level < 256 ^ L.ulongBytes ∧ e.padding < 256 ^ L.padBytes

instance (L : Layout) (e : Entry) : Decidable (EntryOk L e) := by
  unfold EntryOk; infer_instance

/-! ## The flash file system -/

/-- The state of the SPIFFS library as the two persistence methods see it:
whether a file system is found when mounting, whether formatting works, the
files, which paths can be opened for writing, and how many bytes the `k`-th
`write` call on an open file accepts at most. -/
structure Spiffs where
  mountable : Bool
  formattable : Bool
  files : String → Option (List Byte)
  writable : String → Bool
  granted : Nat → Nat

/-- The call `SPIFFS.begin(formatOnFail)`: mounts; when that fails and
`formatOnFail` is set, formats (which leaves no file) and mounts. -/
def Spiffs.begin (fs : Spiffs) (formatOnFail : Bool) : Bool × Spiffs :=
  if fs.mountable then (true, fs)
  else if formatOnFail && fs.formattable then
    (true, { fs with mountable := true, files := fun _ => none })
  else (false, fs)

/-- The `k`-th call `f.write(data, n)` on an open file: the bytes that reach
the file; their number is the call's return value. -/
def Spiffs.write (fs : Spiffs) (k : Nat) (data : List Byte) : List Byte :=
  data.take (fs.granted k)

/-- The call `f.readBytes(dst, n)` on a file whose unread content is `rest`:
the bytes delivered and the content still unread. -/
def readBytes (rest : List Byte) (n : Nat) : List Byte × List Byte :=
  (rest.take n, rest.drop n)

/-- A `uint8_t` member after `readBytes` delivered `bs` into it. -/
def storeByte (old : Nat) (bs : List Byte) : Nat :=
  match bs with
  | [] => old
  | b :: _ => b.val

/-- The array after `readBytes` delivered `bs` into it: a slot that the
delivered bytes cover holds their decoding, the others keep their content
(the size check before the read makes the bytes cover every slot). -/
def storeBuffer (L : Layout) (old : Nat → Entry) (bs : List Byte) : Nat → Entry :=
  fun i =>
    if i < CAPACITY ∧ (i + 1) * L.sizeofEntry ≤ bs.length then
      decodeEntry L ((bs.drop (i * L.sizeofEntry)).take L.sizeofEntry)
    else old i

/-- The method `saveToSpiffs(path)`: the `bool` result and the file system
after the call. The object itself is `const` and not handed back. -/
def WaterLog.saveToSpiffs (L : Layout) (w : WaterLog) (fs : Spiffs) (path : String) :
    Bool × Spiffs :=
  let mounted := fs.begin true
  if !mounted.1 then (false, mounted.2)
  else
    let fs1 := mounted.2
    if !fs1.writable path then (false, fs1)
    else
      let b0 := fs1.write 0 [toByte w.head]
      let b1 := fs1.write 1 [toByte w.tail]
      let b2 := fs1.write 2 [toByte w.count]
      let b3 := fs1.write 3 (rawBuffer L w.buffer CAPACITY)
      let size := b3.length
      (size == L.sizeofBuffer,
        { fs1 with files := Function.update fs1.files path (some (b0 ++ b1 ++ b2 ++ b3)) })

/-- The method `loadFromSpiffs(path)`: the `bool` result and the object after
the call. The three `readBytes` calls for the bookkeeping values write into
the members themselves, before the sanity check. -/
def WaterLog.loadFromSpiffs (L : Layout) (w : WaterLog) (fs : Spiffs) (path : String) :
    Bool × WaterLog :=
  let mounted := fs.begin false
  if !mounted.1 then (false, w)
  else
    match mounted.2.files path with
    | none => (false, w)
    | some content =>
      if content.length ≠ L.expectedSize then (false, w)
      else
        let r0 := readBytes content 1
        let w0 := { w with head := storeByte w.head r0.1 }
        let r1 := readBytes r0.2 1
        let w1 := { w0 with tail := storeByte w0.tail r1.1 }
        let r2 := readBytes r1.2 1
        let w2 := { w1 with count := storeByte w1.count r2.1 }
        if w2.head ≥ CAPACITY ∨ w2.tail ≥ CAPACITY ∨ w2.count > CAPACITY then (false, w2)
        else
          let r3 := readBytes r2.2 L.sizeofBuffer
          (true, { w2 with buffer := storeBuffer L w2.buffer r3.1 })

/-- The states the ring buffer can be in when only the constructor, `add` and
`clear` have worked on it, the arguments of `add` and the content of the
storage being values of their C++ types. -/
inductive Reachable (L : Layout) : WaterLog → Prop
  | new (mem : Nat → Entry) (hmem : ∀ i, i < CAPACITY → EntryOk L (mem i)) :
      Reachable L (WaterLog.new mem)
  | add (w : WaterLog) (ts : Int) (lvl : Nat) (hw : Reachable L w)
      (hts : -((256 : Int) ^ L.timeBytes) ≤ 2 * ts ∧ 2 * ts < (256 : Int) ^ L.timeBytes)
      (hlvl : lvl < 256 ^ L.ulongBytes) : Reachable L (w.add ts lvl)
  | clear (w : WaterLog) (hw : Reachable L w) : Reachable L w.clear

/-- A file system on which `saveToSpiffs` meets no obstacle: it mounts (or can
be formatted), the path opens for writing and every `write` call takes all
the bytes it is given. -/
def Spiffs.Working (L : Layout) (fs : Spiffs) (path : String) : Prop :=
  (fs.mountable = true ∨ fs.formattable = true) ∧ fs.writable path = true
    ∧ ∀ k, max 1 L.sizeofBuffer ≤ fs.granted k

/-- The log after the `add` calls of a sequence of `(timestamp, level)` pairs,
first pair first. -/
def WaterLog.addAll (w : WaterLog) (es : List (Int × Nat)) : WaterLog :=
  es.foldl (fun acc e => acc.add e.1 e.2) w

/-- The `i`-th byte of a file as a number (0 past its end). -/
def byteAt (content : List Byte) (i : Nat) : Nat := (content.getD i 0).val

/-- A platform with a 64-bit `time_t`, a 32-bit `unsigned long` and 8-byte
alignment of the struct. -/
def Layout.time64 : Layout := { timeBytes := 8, ulongBytes := 4, padBytes := 4 }

/-- A platform with a 32-bit `time_t` and a 32-bit `unsigned long`. -/
def Layout.time32 : Layout := { timeBytes := 4, ulongBytes := 4, padBytes := 0 }

/-- Storage that holds zero in every field. -/
def zeroMem : Nat → Entry := fun _ => { timestamp := 0, level := 0, padding := 0 }

/-- A flash file system in good order that holds `content` under every path. -/
def flashWith (content : List Byte) : Spiffs :=
  { mountable := true, formattable := true, files := fun _ => some content,
    writable := fun _ => true, granted := fun _ => 4096 }

/-- A file of the expected size for `Layout.time64` whose three bookkeeping
bytes pass the sanity check. -/
def soundImage : List Byte := 5 :: 2 :: 3 :: List.replicate 1600 0

/-- A file of the expected size for `Layout.time64` whose first byte (`head`)
is 200. -/
def wildHeadImage : List Byte := 200 :: 7 :: 9 :: List.replicate 1600 0

/-- A file of the expected size for `Layout.time64` whose third byte (`count`)
is 101. -/
def wildCountImage : List Byte := 3 :: 0 :: 101 :: List.replicate 1600 0

/-- A file one byte short of the expected size for `Layout.time64`. -/
def shortImage : List Byte := 5 :: 2 :: 3 :: List.replicate 1599 0

/-- The pairs `(0, 0), (1, 1), ..., (n - 1, n - 1)`, a run of readings. -/
def countUp (n : Nat) : List (Int × Nat) := (List.range n).map (fun (k : Nat) => ((k : Int), k))

/-- The log after two readings on zeroed storage. -/
def twoReadings : WaterLog := ((WaterLog.new zeroMem).add 1700000000 41).add 1700000060 42

/-- A full log whose indices both stand at the last slot. -/
def lastSlotLog : WaterLog := { buffer := zeroMem, head := 99, tail := 99, count := 100 }

/-- The object after a sequence of method calls, first call first. -/
def WaterLog.calls (w : WaterLog) (cs : List Call) : WaterLog :=
  cs.foldl (fun acc c => (acc.call c).1) w

/-! ## The CSV dump -/

/-- The fields of the C library's `struct tm` that the dump reads. -/
structure Tm where
  tm_sec : Int
  tm_min : Int
  tm_hour : Int
  tm_mday : Int
  tm_mon : Int
  tm_year : Int
deriving DecidableEq, Repr

/-- The C library's `gmtime_r`: the UTC calendar breakdown of a number of
seconds since the epoch (proleptic Gregorian calendar, days counted in eras
of 400 years from 1 March 0000). -/
def gmtime_r (t : Int) : Tm :=
  let days := t / 86400
  let rem := t % 86400
  let z := days + 719468
  let era := z / 146097
  let doe := z % 146097
  let yoe := (doe - doe / 1460 + doe / 36524 - doe / 146096) / 365
  let doy := doe - (365 * yoe + yoe / 4 - yoe / 100)
  let mp := (5 * doy + 2) / 153
  let day := doy - (153 * mp + 2) / 5 + 1
  let month := if mp < 10 then mp + 3 else mp - 9
  let year := yoe + era * 400 + (if month ≤ 2 then 1 else 0)
  { tm_sec := rem % 60, tm_min := rem / 60 % 60, tm_hour := rem / 3600,
    tm_mday := day, tm_mon := month - 1, tm_year := year - 1900 }

/-- The C library's `localtime_r` in a process whose time-zone setting puts
local time `utcOffset t` seconds ahead of UTC at the instant `t`. -/
def localtime_r (utcOffset : Int → Int) (t : Int) : Tm := gmtime_r (t + utcOffset t)

/-- The constant `gmtOffset_sec` of `main.cpp`, which `syncTimeWithNTP` hands
to `configTime`. -/
def gmtOffset_sec : Int := 3600 * 1

/-- The constant `daylightOffset_sec` of `main.cpp`. -/
def daylightOffset_sec : Int := 3600

/-- The text `printf` produces for an `int` under `%0<width>d`. -/
def padZero (width : Nat) (n : Int) : String :=
  if n < 0 then
    "-" ++ "".pushn '0' (width - 1 - (toString n.natAbs).length) ++ toString n.natAbs
  else
    "".pushn '0' (width - (toString n.toNat).length) ++ toString n.toNat

/-- One data line of the dump, from the body of the loop of `dumpCSVToTelnet`:
the `localtime_r` call (`tz` is that library function), the six fields, the
`printf`, the comma and the level in decimal. -/
def csvRow (tz : Int → Tm) (e : Entry) : String :=
  let utcTime := tz e.timestamp
  let year := utcTime.tm_year + 1900
  let month := utcTime.tm_mon + 1
  let day := utcTime.tm_mday
  let hour := utcTime.tm_hour
  let minute := utcTime.tm_min
  let second := utcTime.tm_sec
  padZero 4 year ++ "-" ++ padZero 2 month ++ "-" ++ padZero 2 day ++ " "
    ++ padZero 2 hour ++ ":" ++ padZero 2 minute ++ ":" ++ padZero 2 second
    ++ "," ++ toString e.level

/-- The loop `for (uint8_t i = 0; i < count; ++i)` of `dumpCSVToTelnet` from the
value `i` on: the lines it sends. `fuel` bounds the number of iterations. -/
def dumpRows (tz : Int → Tm) (w : WaterLog) : Nat → Nat → List String
  | 0, _ => []
  | fuel + 1, i =>
    if i < w.count then
      csvRow tz (w.buffer ((w.tail + i) % CAPACITY)) :: dumpRows tz w fuel ((i + 1) % 256)
    else []

/-- The method `dumpCSVToTelnet`: the lines sent to the client, each ended by
a `println`. A `uint8_t` counter below a `uint8_t` bound leaves the loop
within 256 iterations. -/
def WaterLog.dumpCSVToTelnet (tz : Int → Tm) (w : WaterLog) : List String :=
  "datetime, level" :: dumpRows tz w 256 0

/-- A log with one reading taken at 2023-11-14 22:13:20 UTC. -/
def oneReading : WaterLog := (WaterLog.new zeroMem).add 1700000000 42

/-- The call of `saveToSpiffs` as a step on the object: the method is `const`,
the object is handed back as it was, with the result and the file system. -/
def WaterLog.saveCall (L : Layout) (w : WaterLog) (fs : Spiffs) (path : String) :
    WaterLog × (Bool × Spiffs) :=
  (w, w.saveToSpiffs L fs path)

/-- A mounted, empty flash file system on which the `skip`-th `write` call on
an open file writes nothing (returns 0) and every other call writes all it is
given. -/
def flashDropping (skip : Nat) : Spiffs :=
  { mountable := true, formattable := true, files := fun _ => none,
    writable := fun _ => true, granted := fun k => if k = skip then 0 else 4096 }

/-! ## The line accumulator of the session loop (`main.cpp`) -/

/-- The `#define MAX_USER_INPUT 256`. -/
def MAX_USER_INPUT : Nat := 256

/-- The two `static` locals of `loop`: `char inputBuffer[MAX_USER_INPUT]`
(element `i` for `0 ≤ i < MAX_USER_INPUT`) and `int inputIndex`. -/
structure LineInput where
  inputBuffer : Int → Byte
  inputIndex : Int

/-- The characters of the C string that starts at element `i` of the array:
those before the first NUL. `fuel` bounds the scan. -/
def cStringFrom (buf : Int → Byte) : Nat → Nat → List Byte
  | 0, _ => []
  | fuel + 1, i =>
    if buf (i : Int) = 0 then [] else buf (i : Int) :: cStringFrom buf fuel (i + 1)

/-- The string that a `const char *` pointing at `inputBuffer` denotes; the scan
stays inside the array. -/
def cString (buf : Int → Byte) : List Byte := cStringFrom buf MAX_USER_INPUT 0

/-- What one pass through the body of `while (telnetClient.available())` does:
the two locals after it, the string handed to `set_input_string` if that call
is made, the number of `telnetClient.print(prompt)` calls, and the indices of
the elements of `inputBuffer` it stores to. -/
structure Fed where
  state : LineInput
  line : Option (List Byte)
  prompts : Nat
  stores : List Int

/-- The body of `while (telnetClient.available())` for the character `c` that
`telnetClient.read()` delivered (`'\n'` is 10, `'\r'` is 13). -/
def feed (s : LineInput) (c : Byte) : Fed :=
  if c = 10 then
    if s.inputIndex > 0 then
      let inputBuffer := Function.update s.inputBuffer s.inputIndex 0
      { state := { inputBuffer := inputBuffer, inputIndex := 0 },
        line := some (cString inputBuffer), prompts := 1, stores := [s.inputIndex] }
    else
      { state := s, line := none, prompts := 1, stores := [] }
  else if s.inputIndex < (MAX_USER_INPUT : Int) - 1 then
    if c ≠ 13 then
      { state := { inputBuffer := Function.update s.inputBuffer s.inputIndex c,
                   inputIndex := s.inputIndex + 1 },
        line := none, prompts := 0, stores := [s.inputIndex] }
    else
      { state := s, line := none, prompts := 0, stores := [] }
  else
    { state := s, line := none, prompts := 0, stores := [] }

/-- The passes through the loop body for a sequence of characters, first
character first. -/
def feedTrace (s : LineInput) : List Byte → List Fed
  | [] => []
  | c :: cs => feed s c :: feedTrace (feed s c).state cs

/-- The strings handed to `set_input_string` while a sequence of characters is
fed, in order. -/
def completedLines (s : LineInput) (cs : List Byte) : List (List Byte) :=
  (feedTrace s cs).filterMap (fun f => f.line)

/-- The two locals as `loop` first finds them: `inputIndex = 0`, the array
holding `mem`. -/
def LineInput.start (mem : Int → Byte) : LineInput := { inputBuffer := mem, inputIndex := 0 }

/-- In the words of the specification: of the bytes received since the previous
`'\n'`, those that are neither `'\r'` nor `'\n'`, in arrival order, cut to the
first `MAX_USER_INPUT - 1`. -/
def keptBytes (pending : List Byte) : List Byte :=
  (pending.filter (fun b => b ≠ 13 ∧ b ≠ 10)).take (MAX_USER_INPUT - 1)

/-- In the words of the specification, with the cut at the first NUL that a C
string has: the lines completed while `cs` arrives, `pending` being the bytes
received since the previous `'\n'`. A `'\n'` completes a line when some byte
is kept, and none otherwise. -/
def expectedLines (pending : List Byte) : List Byte → List (List Byte)
  | [] => []
  | c :: cs =>
    if c = 10 then
      if keptBytes pending = [] then expectedLines [] cs
      else (keptBytes pending).takeWhile (fun b => b ≠ 0) :: expectedLines [] cs
    else expectedLines (pending ++ [c]) cs

/-- The two locals hold the bytes `kept`: the cursor is their number and the
array holds them from element 0 on. -/
def LineInput.Holds (s : LineInput) (kept : List Byte) : Prop :=
  s.inputIndex = (kept.length : Int)
    ∧ ∀ j, j < kept.length → kept[j]? = some (s.inputBuffer ((j : Nat) : Int))

/-! ## The water meter (`main.cpp`) -/

/-- The number of values of an `unsigned long` (and of a `long`). -/
def Layout.ulongMod (L : Layout) : Nat := 256 ^ L.ulongBytes

/-- The `static` variables of `main.cpp` that the probe scan and the `set`
command work on, with the log. -/
structure Meter where
  meter_reading : Nat
  meter_reading_previous : Nat
  meter_pulses : Nat
  meter_probe_current : Int
  meter_probe_previous : Int
  timestamp : Int
  waterlog : WaterLog

/-- What the environment delivers to one call of `scanProbe`: the two values of
`millis()` (in the condition and in the assignment), the value of
`digitalRead(PROBE_PIN)` and the value that `time(&now)` stores. -/
structure Sample where
  millisCheck : Nat
  millisStamp : Nat
  pin : Int
  now : Int

/-- The variables after `setup`: the meter variables are zero-initialised
statics, both probe variables hold the pin value read in `setup`, the log is
freshly constructed. -/
def Meter.start (mem : Nat → Entry) (pin : Int) : Meter :=
  { meter_reading := 0, meter_reading_previous := 0, meter_pulses := 0,
    meter_probe_current := pin, meter_probe_previous := pin, timestamp := 0,
    waterlog := WaterLog.new mem }

/-- The handler `handleSet(value)`; the shift is taken in `unsigned long`. -/
def handleSet (L : Layout) (m : Meter) (value : Nat) : Meter :=
  let meter_reading := value
  { m with meter_reading := meter_reading, meter_pulses := (meter_reading <<< 1) % L.ulongMod }

/-- The function `scanProbe`: the variables after the call and the arguments
of the `waterlog.add` call it made, if it made one. The comparison of
`millis()` with the `long timestamp` is made in `unsigned long`; the calls of
`set_led` are left out. -/
def scanProbe (L : Layout) (m : Meter) (s : Sample) : Meter × Option (Int × Nat) :=
  if s.millisCheck > toUnsigned L.ulongMod m.timestamp then
    let m1 := { m with
      timestamp := toSigned L.ulongMod ((s.millisStamp + 100) % L.ulongMod)
      meter_probe_current := s.pin }
    if m1.meter_probe_current ≠ m1.meter_probe_previous then
      let meter_pulses := (m1.meter_pulses + 1) % L.ulongMod
      let meter_reading := meter_pulses >>> 1
      if meter_reading ≠ m1.meter_reading_previous then
        ({ m1 with
            meter_pulses := meter_pulses
            meter_reading := meter_reading
            waterlog := m1.waterlog.add s.now meter_reading
            meter_reading_previous := meter_reading
            meter_probe_previous := m1.meter_probe_current },
          some (s.now, meter_reading))
      else
        ({ m1 with
            meter_pulses := meter_pulses
            meter_reading := meter_reading
            meter_probe_previous := m1.meter_probe_current },
          none)
    else (m1, none)
  else (m, none)

/-- Whether a call of `scanProbe` detects a probe edge: the time gate is open
and the pin differs from `meter_probe_previous`. -/
def detectsEdge (L : Layout) (m : Meter) (s : Sample) : Bool :=
  decide (s.millisCheck > toUnsigned L.ulongMod m.timestamp)
    && decide (s.pin ≠ m.meter_probe_previous)

/-- The calls of `scanProbe` for a sequence of samples: the variables at the
end and the `waterlog.add` calls made, in order. -/
def scanAll (L : Layout) (m : Meter) : List Sample → Meter × List (Int × Nat)
  | [] => (m, [])
  | s :: ss =>
    ((scanAll L (scanProbe L m s).1 ss).1,
      (scanProbe L m s).2.toList ++ (scanAll L (scanProbe L m s).1 ss).2)

/-- The number of calls of `scanProbe`, over a sequence of samples, that detect
a probe edge. -/
def edgeCount (L : Layout) (m : Meter) : List Sample → Nat
  | [] => 0
  | s :: ss => (if detectsEdge L m s then 1 else 0) + edgeCount L (scanProbe L m s).1 ss

/-- Samples taken 200 ms apart on which the pin alternates 1, 0, 1, ... -/
def alternating : Nat → List Sample
  | 0 => []
  | n + 1 => alternating n ++
      [{ millisCheck := 200 * (n + 1), millisStamp := 200 * (n + 1),
         pin := if n % 2 = 0 then 1 else 0, now := 1700000000 + n }]

/-! ## The in-memory methods -/

section Methods

theorem add_head (w : WaterLog) (ts : Int) (lvl : Nat) :
    (w.add ts lvl).head = (w.head + 1) % CAPACITY := by
  unfold WaterLog.add CAPACITY
  split <;> simp only <;> omega

theorem add_buffer (w : WaterLog) (ts : Int) (lvl : Nat) :
    (w.add ts lvl).buffer = Function.update w.buffer w.head
      { timestamp := ts, level := lvl, padding := (w.buffer w.head).padding } := by
  unfold WaterLog.add
  split <;> rfl

theorem add_count_lt (w : WaterLog) (ts : Int) (lvl : Nat) (h : w.count < CAPACITY) :
    (w.add ts lvl).count = w.count + 1 ∧ (w.add ts lvl).tail = w.tail := by
  unfold WaterLog.add
  rw [if_pos h]
  unfold CAPACITY at h
  simp only [and_true]
  omega

theorem add_count_full (w : WaterLog) (ts : Int) (lvl : Nat) (h : ¬ w.count < CAPACITY) :
    (w.add ts lvl).count = w.count ∧ (w.add ts lvl).tail = (w.tail + 1) % CAPACITY := by
  unfold WaterLog.add
  rw [if_neg h]
  unfold CAPACITY
  simp only [true_and]
  omega

theorem add_bounded (w : WaterLog) (ts : Int) (lvl : Nat) (h : w.Bounded) :
    (w.add ts lvl).Bounded := by
  obtain ⟨hc, hh, ht⟩ := h
  refine ⟨?_, ?_, ?_⟩
  · by_cases hlt : w.count < CAPACITY
    · rw [(add_count_lt w ts lvl hlt).1]; omega
    · rw [(add_count_full w ts lvl hlt).1]; exact hc
  · rw [add_head]; exact Nat.mod_lt _ (by decide)
  · by_cases hlt : w.count < CAPACITY
    · rw [(add_count_lt w ts lvl hlt).2]; exact ht
    · rw [(add_count_full w ts lvl hlt).2]; exact Nat.mod_lt _ (by decide)

theorem get_eq (w : WaterLog) (idx : Nat) (out : Entry) :
    w.get idx out =
      if idx < w.count then (true, w.buffer ((w.tail + idx) % CAPACITY)) else (false, out) := by
  unfold WaterLog.get
  by_cases h : idx < w.count
  · have hpos : (w.tail + idx) % CAPACITY % 256 = (w.tail + idx) % CAPACITY := by
      unfold CAPACITY; omega
    rw [if_neg (by omega), if_pos h, hpos]
  · rw [if_pos (by omega), if_neg h]

end Methods

/-! ## The raw encoding -/

section Encoding

theorem length_toLE (k n : Nat) : (toLE k n).length = k := by
  induction k generalizing n with
  | zero => rfl
  | succ k ih => simp only [toLE, List.length_cons, ih]

theorem ofLE_toLE (k n : Nat) : ofLE (toLE k n) = n % 256 ^ k := by
  induction k generalizing n with
  | zero => simp [toLE, ofLE, Nat.mod_one]
  | succ k ih =>
    simp only [toLE, ofLE, toByte, ih]
    rw [pow_succ, Nat.mul_comm (256 ^ k) 256, Nat.mod_mul]

theorem toSigned_toUnsigned (m : Nat) (z : Int)
    (hlo : -(m : Int) ≤ 2 * z) (hhi : 2 * z < (m : Int)) :
    toSigned m (toUnsigned m z) = z := by
  unfold toSigned toUnsigned
  by_cases hz : 0 ≤ z
  · have hmod : z % (m : Int) = z := Int.emod_eq_of_lt hz (by omega)
    rw [hmod, Int.toNat_of_nonneg hz]
    have : 2 * z.toNat < m := by omega
    rw [if_pos this]
  · have hmod : z % (m : Int) = z + m := by
      rw [← Int.add_emod_self]
      exact Int.emod_eq_of_lt (by omega) (by omega)
    rw [hmod, Int.toNat_of_nonneg (by omega)]
    have : ¬ 2 * (z + (m : Int)).toNat < m := by omega
    rw [if_neg this]
    omega

theorem length_encodeEntry (L : Layout) (e : Entry) :
    (encodeEntry L e).length = L.sizeofEntry := by
  simp only [encodeEntry, List.length_append, length_toLE, Layout.sizeofEntry]

theorem decodeEntry_encodeEntry (L : Layout) (e : Entry) (he : EntryOk L e) :
    decodeEntry L (encodeEntry L e) = e := by
  obtain ⟨hlo, hhi, hlvl, hpad⟩ := he
  have h1 : ((toLE L.timeBytes (toUnsigned (256 ^ L.timeBytes) e.timestamp)
      ++ toLE L.ulongBytes e.level ++ toLE L.padBytes e.padding).take L.timeBytes)
      = toLE L.timeBytes (toUnsigned (256 ^ L.timeBytes) e.timestamp) := by
    rw [List.append_assoc]
    exact List.take_left' (length_toLE _ _)
  have h2 : ((toLE L.timeBytes (toUnsigned (256 ^ L.timeBytes) e.timestamp)
      ++ toLE L.ulongBytes e.level ++ toLE L.padBytes e.padding).drop L.timeBytes).take
        L.ulongBytes = toLE L.ulongBytes e.level := by
    rw [List.append_assoc, List.drop_left' (length_toLE _ _)]
    exact List.take_left' (length_toLE _ _)
  have h3 : ((toLE L.timeBytes (toUnsigned (256 ^ L.timeBytes) e.timestamp)
      ++ toLE L.ulongBytes e.level ++ toLE L.padBytes e.padding).drop
        (L.timeBytes + L.ulongBytes)).take L.padBytes = toLE L.padBytes e.padding := by
    rw [List.drop_left' (by rw [List.length_append, length_toLE, length_toLE])]
    exact List.take_of_length_le (by rw [length_toLE])
  have hu : toUnsigned (256 ^ L.timeBytes) e.timestamp < 256 ^ L.timeBytes := by
    unfold toUnsigned
    have hpos : (0 : Int) < ((256 ^ L.timeBytes : Nat) : Int) := by positivity
    have := Int.emod_lt_of_pos e.timestamp hpos
    have := Int.emod_nonneg e.timestamp (ne_of_gt hpos)
    omega
  unfold decodeEntry encodeEntry
  rw [h1, h2, h3, ofLE_toLE, ofLE_toLE, ofLE_toLE, Nat.mod_eq_of_lt hu, Nat.mod_eq_of_lt hlvl,
    Nat.mod_eq_of_lt hpad, toSigned_toUnsigned _ _ (by push_cast; exact hlo)
      (by push_cast; exact hhi)]

theorem length_rawBuffer (L : Layout) (buf : Nat → Entry) (n : Nat) :
    (rawBuffer L buf n).length = n * L.sizeofEntry := by
  induction n with
  | zero => simp [rawBuffer]
  | succ n ih =>
    simp only [rawBuffer, List.length_append, ih, length_encodeEntry]
    rw [Nat.succ_mul]

theorem rawBuffer_chunk (L : Layout) (buf : Nat → Entry) (n i : Nat) (hi : i < n) :
    ((rawBuffer L buf n).drop (i * L.sizeofEntry)).take L.sizeofEntry
      = encodeEntry L (buf i) := by
  induction n with
  | zero => omega
  | succ n ih =>
    simp only [rawBuffer]
    by_cases hlt : i < n
    · have hle : (i + 1) * L.sizeofEntry ≤ n * L.sizeofEntry :=
        Nat.mul_le_mul_right _ hlt
      rw [Nat.succ_mul] at hle
      rw [List.drop_append_eq_append_drop, List.take_append_eq_append_take,
        List.length_drop, length_rawBuffer, ih hlt]
      have h0 : L.sizeofEntry - (n * L.sizeofEntry - i * L.sizeofEntry) = 0 := by omega
      rw [h0, List.take_zero, List.append_nil]
    · have hin : i = n := by omega
      subst hin
      rw [List.drop_left' (length_rawBuffer L buf i)]
      exact List.take_of_length_le (by rw [length_encodeEntry])

end Encoding

/-! ## Loading -/

section Loading

theorem begin_false (fs : Spiffs) : fs.begin false = (fs.mountable, fs) := by
  unfold Spiffs.begin
  cases h : fs.mountable <;> simp

theorem load_unmounted (L : Layout) (w : WaterLog) (fs : Spiffs) (path : String)
    (hm : fs.mountable = false) : w.loadFromSpiffs L fs path = (false, w) := by
  simp [WaterLog.loadFromSpiffs, begin_false, hm]

theorem load_missing (L : Layout) (w : WaterLog) (fs : Spiffs) (path : String)
    (hf : fs.files path = none) : w.loadFromSpiffs L fs path = (false, w) := by
  cases hm : fs.mountable
  · exact load_unmounted L w fs path hm
  · simp [WaterLog.loadFromSpiffs, begin_false, hm, hf]

theorem load_wrong_size (L : Layout) (w : WaterLog) (fs : Spiffs) (path : String)
    (content : List Byte) (hf : fs.files path = some content)
    (hl : content.length ≠ L.expectedSize) : w.loadFromSpiffs L fs path = (false, w) := by
  cases hm : fs.mountable
  · exact load_unmounted L w fs path hm
  · simp [WaterLog.loadFromSpiffs, begin_false, hm, hf, hl]

theorem load_sized (L : Layout) (w : WaterLog) (fs : Spiffs) (path : String)
    (b0 b1 b2 : Byte) (rest : List Byte) (hm : fs.mountable = true)
    (hf : fs.files path = some (b0 :: b1 :: b2 :: rest))
    (hl : rest.length = L.sizeofBuffer) :
    w.loadFromSpiffs L fs path =
      if b0.val ≥ CAPACITY ∨ b1.val ≥ CAPACITY ∨ b2.val > CAPACITY then
        (false, { buffer := w.buffer, head := b0.val, tail := b1.val, count := b2.val })
      else
        (true, { buffer := storeBuffer L w.buffer rest, head := b0.val, tail := b1.val,
                 count := b2.val }) := by
  have hlen : (b0 :: b1 :: b2 :: rest).length = L.expectedSize := by
    simp only [List.length_cons, hl, Layout.expectedSize]; omega
  have htake : rest.take L.sizeofBuffer = rest := List.take_of_length_le (by omega)
  simp [WaterLog.loadFromSpiffs, begin_false, hm, hf, hlen, readBytes, storeByte, htake]

theorem sized_content (n : Nat) (content : List Byte) (hl : content.length = 1 + 1 + 1 + n) :
    ∃ b0 b1 b2 rest, content = b0 :: b1 :: b2 :: rest ∧ rest.length = n := by
  match content, hl with
  | [], hl => simp only [List.length_nil] at hl; omega
  | [_], hl => simp only [List.length_cons, List.length_nil] at hl; omega
  | [_, _], hl => simp only [List.length_cons, List.length_nil] at hl; omega
  | b0 :: b1 :: b2 :: rest, hl =>
    exact ⟨b0, b1, b2, rest, rfl, by simp only [List.length_cons] at hl; omega⟩

theorem storeBuffer_covered (L : Layout) (old : Nat → Entry) (bs : List Byte) (i : Nat)
    (hi : i < CAPACITY) (hl : bs.length = L.sizeofBuffer) :
    storeBuffer L old bs i = decodeEntry L ((bs.drop (i * L.sizeofEntry)).take L.sizeofEntry) := by
  unfold storeBuffer
  have hle : (i + 1) * L.sizeofEntry ≤ bs.length := by
    rw [hl, Layout.sizeofBuffer]
    exact Nat.mul_le_mul_right _ hi
  rw [if_pos ⟨hi, hle⟩]

theorem load_success_bounded (L : Layout) (w : WaterLog) (fs : Spiffs) (path : String)
    (hok : (w.loadFromSpiffs L fs path).1 = true) : (w.loadFromSpiffs L fs path).2.Bounded := by
  cases hm : fs.mountable
  · rw [load_unmounted L w fs path hm] at hok; cases hok
  · cases hf : fs.files path with
    | none => rw [load_missing L w fs path hf] at hok; cases hok
    | some content =>
      by_cases hl : content.length = L.expectedSize
      · obtain ⟨b0, b1, b2, rest, hc, hr⟩ := sized_content _ content hl
        subst hc
        rw [load_sized L w fs path b0 b1 b2 rest hm hf hr] at hok ⊢
        by_cases hbad : b0.val ≥ CAPACITY ∨ b1.val ≥ CAPACITY ∨ b2.val > CAPACITY
        · rw [if_pos hbad] at hok; cases hok
        · rw [if_neg hbad]
          simp only [WaterLog.Bounded]
          omega
      · rw [load_wrong_size L w fs path content hf hl] at hok; cases hok

end Loading

/-! ## Sequences of `add` calls -/

section Sequences

theorem addAll_snoc (w : WaterLog) (es : List (Int × Nat)) (e : Int × Nat) :
    w.addAll (es ++ [e]) = (w.addAll es).add e.1 e.2 := by
  simp only [WaterLog.addAll, List.foldl_append, List.foldl_cons, List.foldl_nil]

/-- After `n` calls of `add` on a fresh log: `count = min n CAPACITY`,
`head = n mod CAPACITY`, `tail = (n - CAPACITY) mod CAPACITY`, and the slot
`j mod CAPACITY` holds the `j`-th pair for each of the last `CAPACITY`
positions `j`. -/
theorem addAll_new_state (mem : Nat → Entry) (es : List (Int × Nat)) :
    ((WaterLog.new mem).addAll es).count = min es.length CAPACITY
      ∧ ((WaterLog.new mem).addAll es).head = es.length % CAPACITY
      ∧ ((WaterLog.new mem).addAll es).tail = (es.length - CAPACITY) % CAPACITY
      ∧ ∀ j, es.length - CAPACITY ≤ j → j < es.length →
          es[j]? = some ((((WaterLog.new mem).addAll es).buffer (j % CAPACITY)).timestamp,
            (((WaterLog.new mem).addAll es).buffer (j % CAPACITY)).level) := by
  induction es using List.reverseRecOn with
  | nil =>
    refine ⟨rfl, rfl, rfl, ?_⟩
    intro j _ hj
    simp only [List.length_nil] at hj
    omega
  | append_singleton es e ih =>
    obtain ⟨hc, hh, ht, hb⟩ := ih
    rw [addAll_snoc]
    simp only [List.length_append, List.length_singleton]
    have hhead := add_head ((WaterLog.new mem).addAll es) e.1 e.2
    have hbuf := add_buffer ((WaterLog.new mem).addAll es) e.1 e.2
    have hcnt : (((WaterLog.new mem).addAll es).add e.1 e.2).count = min (es.length + 1) CAPACITY
        ∧ (((WaterLog.new mem).addAll es).add e.1 e.2).tail
            = (es.length + 1 - CAPACITY) % CAPACITY := by
      by_cases hlt : ((WaterLog.new mem).addAll es).count < CAPACITY
      · obtain ⟨h1, h2⟩ := add_count_lt _ e.1 e.2 hlt
        rw [h1, h2, ht, hc]
        rw [hc] at hlt
        unfold CAPACITY at hlt ⊢
        omega
      · obtain ⟨h1, h2⟩ := add_count_full _ e.1 e.2 hlt
        rw [h1, h2, ht, hc]
        rw [hc] at hlt
        unfold CAPACITY at hlt ⊢
        omega
    refine ⟨hcnt.1, ?_, hcnt.2, ?_⟩
    · rw [hhead, hh]
      unfold CAPACITY
      omega
    · intro j hlo hhi
      rw [hbuf, hh]
      by_cases hj : j = es.length
      · subst hj
        rw [Function.update_same, List.getElem?_append_right (le_refl _)]
        simp
      · have hjlt : j < es.length := by omega
        have hne : j % CAPACITY ≠ es.length % CAPACITY := by
          unfold CAPACITY at hlo ⊢
          omega
        rw [Function.update_noteq hne, List.getElem?_append_left hjlt]
        exact hb j (by omega) hjlt

end Sequences

/-! ## Saving, and what is reachable -/

section Saving

theorem reachable_bounded (L : Layout) (w : WaterLog) (h : Reachable L w) : w.Bounded := by
  induction h with
  | new mem _ => simp [WaterLog.Bounded, WaterLog.new, CAPACITY]
  | add w ts lvl _ _ _ ih => exact add_bounded w ts lvl ih
  | clear w _ _ => simp [WaterLog.Bounded, WaterLog.clear, CAPACITY]

theorem reachable_entryOk (L : Layout) (w : WaterLog) (h : Reachable L w) :
    ∀ i, i < CAPACITY → EntryOk L (w.buffer i) := by
  induction h with
  | new mem hmem => exact hmem
  | add w ts lvl _ hts hlvl ih =>
    intro i hi
    rw [add_buffer]
    by_cases hih : i = w.head
    · subst hih
      rw [Function.update_same]
      exact ⟨hts.1, hts.2, hlvl, (ih _ hi).2.2.2⟩
    · rw [Function.update_noteq hih]
      exact ih i hi
  | clear w _ ih => exact ih

theorem begin_true_working (fs : Spiffs) (h : fs.mountable = true ∨ fs.formattable = true) :
    (fs.begin true).1 = true ∧ (fs.begin true).2.mountable = true
      ∧ (fs.begin true).2.writable = fs.writable ∧ (fs.begin true).2.granted = fs.granted := by
  unfold Spiffs.begin
  cases hm : fs.mountable
  · have hf : fs.formattable = true := by
      rcases h with h | h
      · rw [hm] at h; cases h
      · exact h
    simp [hf]
  · simp [hm]

theorem save_working (L : Layout) (w : WaterLog) (fs : Spiffs) (path : String)
    (hfs : fs.Working L path) :
    (w.saveToSpiffs L fs path).1 = true
      ∧ (w.saveToSpiffs L fs path).2.mountable = true
      ∧ (w.saveToSpiffs L fs path).2.files path
          = some (toByte w.head :: toByte w.tail :: toByte w.count
              :: rawBuffer L w.buffer CAPACITY) := by
  obtain ⟨hmf, hwr, hgr⟩ := hfs
  obtain ⟨hb1, hb2, hb3, hb4⟩ := begin_true_working fs hmf
  have hone : ∀ (k : Nat) (b : Byte), (fs.begin true).2.write k [b] = [b] := by
    intro k b
    unfold Spiffs.write
    rw [hb4]
    exact List.take_of_length_le (by have := hgr k; simp only [List.length_singleton]; omega)
  have hraw : (fs.begin true).2.write 3 (rawBuffer L w.buffer CAPACITY)
      = rawBuffer L w.buffer CAPACITY := by
    unfold Spiffs.write
    rw [hb4]
    exact List.take_of_length_le (by
      have := hgr 3
      rw [length_rawBuffer, ← Layout.sizeofBuffer]
      omega)
  have hwr2 : (fs.begin true).2.writable path = true := by rw [hb3]; exact hwr
  have hsave : w.saveToSpiffs L fs path =
      ((rawBuffer L w.buffer CAPACITY).length == L.sizeofBuffer,
        { (fs.begin true).2 with
          files := Function.update (fs.begin true).2.files path
            (some (toByte w.head :: toByte w.tail :: toByte w.count
              :: rawBuffer L w.buffer CAPACITY)) }) := by
    unfold WaterLog.saveToSpiffs
    simp only [hb1, hwr2, Bool.not_true, Bool.false_eq_true, if_false]
    rw [hone, hone, hone, hraw]
    simp only [List.cons_append, List.nil_append]
  rw [hsave]
  refine ⟨?_, hb2, ?_⟩
  · simp only [length_rawBuffer, Layout.sizeofBuffer, beq_self_eq_true]
  · simp only [Function.update_same]

end Saving

/-- Claim C6: in a state with `head < CAPACITY` and `count ≤ CAPACITY`,
`add(ts, lvl)` stores `ts` and `lvl` in the slot at the old `head`, leaves every
other slot as it was, sets `head` to `(head + 1) mod CAPACITY`, and either
increments `count` and keeps `tail` (when `count < CAPACITY`) or keeps `count`
and sets `tail` to `(tail + 1) mod CAPACITY` (when `count = CAPACITY`). -/
theorem add_effect (w : WaterLog) (ts : Int) (lvl : Nat)
    (_hhead : w.head < CAPACITY) (_hcount : w.count ≤ CAPACITY) :
    ((w.add ts lvl).buffer w.head).timestamp = ts
      ∧ ((w.add ts lvl).buffer w.head).level = lvl
      ∧ (∀ j, j ≠ w.head → (w.add ts lvl).buffer j = w.buffer j)
      ∧ (w.add ts lvl).head = (w.head + 1) % CAPACITY
      ∧ (w.count < CAPACITY →
          (w.add ts lvl).count = w.count + 1 ∧ (w.add ts lvl).tail = w.tail)
      ∧ (w.count = CAPACITY →
          (w.add ts lvl).count = w.count ∧ (w.add ts lvl).tail = (w.tail + 1) % CAPACITY) := by
  refine ⟨?_, ?_, ?_, add_head w ts lvl, add_count_lt w ts lvl, ?_⟩
  · rw [add_buffer, Function.update_same]
  · rw [add_buffer, Function.update_same]
  · intro j hj
    rw [add_buffer, Function.update_noteq hj]
  · intro h
    exact add_count_full w ts lvl (by omega)

/-- Witness for C6: a full log with `head = tail = 99`, where the write wraps
both indices round to 0. -/
theorem add_effect_witness :
    (lastSlotLog.head < CAPACITY ∧ lastSlotLog.count ≤ CAPACITY)
      ∧ ((lastSlotLog.add 1700000000 42).buffer 99).level = 42
      ∧ (lastSlotLog.add 1700000000 42).head = 0 ∧ (lastSlotLog.add 1700000000 42).tail = 0
      ∧ (lastSlotLog.add 1700000000 42).count = 100 :=
  have h := add_effect lastSlotLog 1700000000 42 (by decide) (by decide)
  ⟨⟨by decide, by decide⟩, h.2.1, h.2.2.2.1.trans (by decide),
    (h.2.2.2.2.2 rfl).2.trans (by decide), (h.2.2.2.2.2 rfl).1.trans (by decide)⟩

/-- Claim C7: for every state and every index, `get(idx, out)` returns `true`
exactly when `idx < count`; on success `out` holds a copy of the slot at
`(tail + idx) mod CAPACITY`, the sum taken without 8-bit wrap-around; on
failure `out` is untouched; and the call hands the object back as it was. -/
theorem get_spec (w : WaterLog) (idx : Nat) (out : Entry) :
    ((w.get idx out).1 = true ↔ idx < w.count)
      ∧ (w.get idx out).2
          = (if idx < w.count then w.buffer ((w.tail + idx) % CAPACITY) else out)
      ∧ w.call (Call.get idx out)
          = (w, Reply.got (decide (idx < w.count))
              (if idx < w.count then w.buffer ((w.tail + idx) % CAPACITY) else out)) := by
  have hget := get_eq w idx out
  by_cases h : idx < w.count
  · rw [if_pos h] at hget
    simp [WaterLog.call, hget, h]
  · rw [if_neg h] at hget
    simp [WaterLog.call, hget, h]

/-- Claim C8: after `clear()` the three indices are 0, `size()` is 0, `get(i)`
fails for every `i` (so for `i = 0`), and every slot of the array holds what
it held before. -/
theorem clear_spec (w : WaterLog) :
    w.clear.head = 0 ∧ w.clear.tail = 0 ∧ w.clear.count = 0 ∧ w.clear.size = 0
      ∧ (∀ i out, w.clear.get i out = (false, out))
      ∧ (∀ i, w.clear.buffer i = w.buffer i)
      ∧ w.call Call.clear = (w.clear, Reply.done) := by
  refine ⟨rfl, rfl, rfl, rfl, ?_, fun _ => rfl, rfl⟩
  intro i out
  rw [get_eq]
  exact if_neg (Nat.not_lt_zero i)

/-- Claim C5: the predicate `count ≤ CAPACITY ∧ head < CAPACITY ∧ tail < CAPACITY`
holds for the freshly constructed log, is preserved by `add` and by `clear`,
and holds for the state that a `loadFromSpiffs` call returning `true` leaves. -/
theorem bounded_invariant (L : Layout) :
    (∀ mem : Nat → Entry, (WaterLog.new mem).Bounded)
      ∧ (∀ (w : WaterLog) (ts : Int) (lvl : Nat), w.Bounded → (w.add ts lvl).Bounded)
      ∧ (∀ w : WaterLog, w.Bounded → w.clear.Bounded)
      ∧ (∀ (w : WaterLog) (fs : Spiffs) (path : String),
          (w.loadFromSpiffs L fs path).1 = true → (w.loadFromSpiffs L fs path).2.Bounded) := by
  refine ⟨fun mem => ?_, add_bounded, fun w _ => ?_, load_success_bounded L⟩
  · simp [WaterLog.Bounded, WaterLog.new, CAPACITY]
  · simp [WaterLog.Bounded, WaterLog.clear, CAPACITY]

/-- Witness for C5: the invariant carried through an `add` on a full log and
through a successful load into a log whose indices were out of range. -/
theorem bounded_invariant_witness :
    (lastSlotLog.add 5 7).Bounded
      ∧ lastSlotLog.clear.Bounded
      ∧ (({ buffer := zeroMem, head := 250, tail := 0, count := 0 } : WaterLog).loadFromSpiffs
          Layout.time64 (flashWith soundImage) "/water.log").2.Bounded :=
  ⟨(bounded_invariant Layout.time64).2.1 lastSlotLog 5 7 (by decide),
    (bounded_invariant Layout.time64).2.2.1 lastSlotLog (by decide),
    (bounded_invariant Layout.time64).2.2.2 _ _ _ (by
      rw [load_sized Layout.time64 _ (flashWith soundImage) "/water.log" 5 2 3
        (List.replicate 1600 0) rfl rfl (by rw [List.length_replicate]; rfl)]
      decide)⟩

/-- Claim C9: on a mountable store, `loadFromSpiffs` returns `false` exactly
when the file does not exist, or its length is not `3 + CAPACITY * sizeof(Entry)`,
or its first or second byte is `≥ CAPACITY`, or its third byte is `> CAPACITY`;
and when it returns `true`, `head`, `tail` and `count` are the first three bytes
and each of the `CAPACITY` slots holds the decoding of its bytes in the file. -/
theorem load_spec (L : Layout) (w : WaterLog) (fs : Spiffs) (path : String)
    (hm : fs.mountable = true) :
    ((w.loadFromSpiffs L fs path).1 = false ↔
        (fs.files path = none ∨ ∃ content, fs.files path = some content ∧
          (content.length ≠ 3 + CAPACITY * L.sizeofEntry ∨ byteAt content 0 ≥ CAPACITY
            ∨ byteAt content 1 ≥ CAPACITY ∨ byteAt content 2 > CAPACITY)))
      ∧ ((w.loadFromSpiffs L fs path).1 = true →
          ∃ content, fs.files path = some content
            ∧ (w.loadFromSpiffs L fs path).2.head = byteAt content 0
            ∧ (w.loadFromSpiffs L fs path).2.tail = byteAt content 1
            ∧ (w.loadFromSpiffs L fs path).2.count = byteAt content 2
            ∧ ∀ i, i < CAPACITY → (w.loadFromSpiffs L fs path).2.buffer i
                = decodeEntry L ((content.drop (3 + i * L.sizeofEntry)).take L.sizeofEntry)) := by
  have hsize : L.expectedSize = 3 + CAPACITY * L.sizeofEntry := by
    simp only [Layout.expectedSize, Layout.sizeofBuffer]
  cases hf : fs.files path with
  | none =>
    rw [load_missing L w fs path hf]
    simp
  | some content =>
    by_cases hl : content.length = L.expectedSize
    · obtain ⟨b0, b1, b2, rest, hc, hr⟩ := sized_content _ content hl
      subst hc
      rw [load_sized L w fs path b0 b1 b2 rest hm hf hr]
      have hlen : (b0 :: b1 :: b2 :: rest).length = 3 + CAPACITY * L.sizeofEntry := by
        rw [hl, hsize]
      by_cases hbad : b0.val ≥ CAPACITY ∨ b1.val ≥ CAPACITY ∨ b2.val > CAPACITY
      · rw [if_pos hbad]
        refine ⟨⟨fun _ => Or.inr ⟨_, rfl, Or.inr hbad⟩, fun _ => rfl⟩, ?_⟩
        intro h; cases h
      · rw [if_neg hbad]
        constructor
        · constructor
          · intro h; cases h
          · rintro (h | ⟨c, hc, h⟩)
            · cases h
            · cases hc
              rcases h with h | h
              · exact absurd hlen h
              · exact absurd h hbad
        · intro _
          refine ⟨_, rfl, rfl, rfl, rfl, ?_⟩
          intro i hi
          have hdrop : (b0 :: b1 :: b2 :: rest).drop (3 + i * L.sizeofEntry)
              = rest.drop (i * L.sizeofEntry) := by
            rw [← List.drop_drop]
            rfl
          rw [hdrop]
          exact storeBuffer_covered L w.buffer rest i hi hr
    · rw [load_wrong_size L w fs path content hf hl]
      refine ⟨⟨fun _ => Or.inr ⟨_, rfl, Or.inl (by rw [← hsize]; exact hl)⟩, fun _ => rfl⟩, ?_⟩
      intro h; cases h

/-- Witness for C9: a store that mounts and holds a file of the expected size
whose third byte is 101; the load fails. -/
theorem load_spec_witness :
    (flashWith wildCountImage).mountable = true
      ∧ (lastSlotLog.loadFromSpiffs Layout.time64 (flashWith wildCountImage) "/water.log").1
          = false :=
  ⟨rfl, (load_spec Layout.time64 lastSlotLog (flashWith wildCountImage) "/water.log" rfl).1.2
    (Or.inr ⟨wildCountImage, rfl, Or.inr (Or.inr (Or.inr (by decide)))⟩)⟩

/-- Claim C10: when the file exists and its length is not
`3 + CAPACITY * sizeof(Entry)` (one byte short of it, for one), `loadFromSpiffs`
returns `false` and the object is what it was: `head`, `tail`, `count` and
every slot of the array. -/
theorem load_size_mismatch (L : Layout) (w : WaterLog) (fs : Spiffs) (path : String)
    (content : List Byte) (hf : fs.files path = some content)
    (hl : content.length ≠ 3 + CAPACITY * L.sizeofEntry) :
    (w.loadFromSpiffs L fs path).1 = false
      ∧ (w.loadFromSpiffs L fs path).2 = w
      ∧ (w.loadFromSpiffs L fs path).2.head = w.head
      ∧ (w.loadFromSpiffs L fs path).2.tail = w.tail
      ∧ (w.loadFromSpiffs L fs path).2.count = w.count
      ∧ ∀ i, (w.loadFromSpiffs L fs path).2.buffer i = w.buffer i := by
  have hl2 : content.length ≠ L.expectedSize := by
    simp only [Layout.expectedSize, Layout.sizeofBuffer]; omega
  rw [load_wrong_size L w fs path content hf hl2]
  exact ⟨rfl, rfl, rfl, rfl, rfl, fun _ => rfl⟩

/-- Witness for C10: a file of 1602 bytes where 1603 are expected. -/
theorem load_size_mismatch_witness :
    (flashWith shortImage).files "/water.log" = some shortImage
      ∧ shortImage.length ≠ 3 + CAPACITY * Layout.time64.sizeofEntry
      ∧ (lastSlotLog.loadFromSpiffs Layout.time64 (flashWith shortImage) "/water.log").1 = false
      ∧ (lastSlotLog.loadFromSpiffs Layout.time64 (flashWith shortImage) "/water.log").2
          = lastSlotLog :=
  have hl : shortImage.length ≠ 3 + CAPACITY * Layout.time64.sizeofEntry := by
    simp only [shortImage, List.length_cons, List.length_replicate]
    decide
  have h := load_size_mismatch Layout.time64 lastSlotLog (flashWith shortImage) "/water.log"
    shortImage rfl hl
  ⟨rfl, hl, h.1, h.2.1⟩

/-- Evaluation for claim C3: a file of the expected size whose first byte is
200 makes `loadFromSpiffs` return `false`, and the log that had
`head = tail = 99`, `count = 100` before the call has `head = 200`, `tail = 7`,
`count = 9` after it. -/
theorem load_failure_overwrites_indices :
    (lastSlotLog.loadFromSpiffs Layout.time64 (flashWith wildHeadImage) "/water.log").1 = false
      ∧ (lastSlotLog.loadFromSpiffs Layout.time64 (flashWith wildHeadImage) "/water.log").2.head
          = 200
      ∧ (lastSlotLog.loadFromSpiffs Layout.time64 (flashWith wildHeadImage) "/water.log").2.tail
          = 7
      ∧ (lastSlotLog.loadFromSpiffs Layout.time64 (flashWith wildHeadImage) "/water.log").2.count
          = 9
      ∧ lastSlotLog.head = 99 ∧ lastSlotLog.tail = 99 ∧ lastSlotLog.count = 100 := by
  rw [load_sized Layout.time64 lastSlotLog (flashWith wildHeadImage) "/water.log" 200 7 9
    (List.replicate 1600 0) rfl rfl (by rw [List.length_replicate]; rfl)]
  decide

/-- Evaluation for claim C4: from the empty log, one `add`, then a load of a
file of the expected size whose first byte is 200 (the load returns `false`):
`head` is 200, outside `[0, CAPACITY)`, and the next `add` stores its entry in
slot 200, past the end of the array. -/
theorem add_after_failed_load_out_of_range :
    (((WaterLog.new zeroMem).add 1700000000 1).loadFromSpiffs Layout.time64
        (flashWith wildHeadImage) "/water.log").1 = false
      ∧ ¬ (((WaterLog.new zeroMem).add 1700000000 1).loadFromSpiffs Layout.time64
            (flashWith wildHeadImage) "/water.log").2.head < CAPACITY
      ∧ (((((WaterLog.new zeroMem).add 1700000000 1).loadFromSpiffs Layout.time64
            (flashWith wildHeadImage) "/water.log").2.add 1700000060 2).buffer 200).level = 2
      ∧ (zeroMem 200).level = 0 := by
  rw [load_sized Layout.time64 _ (flashWith wildHeadImage) "/water.log" 200 7 9
    (List.replicate 1600 0) rfl rfl (by rw [List.length_replicate]; rfl)]
  decide

/-- Claim C1: after the `add` calls of any sequence of `n` pairs on a fresh
log, `size()` is `min n CAPACITY`, and for every `i < size()` the call `get(i)`
succeeds and delivers the pair inserted at position `(n - CAPACITY) + i` of the
sequence (the difference is 0 when `n ≤ CAPACITY`); so after `CAPACITY + k`
insertions `size()` is `CAPACITY` and `get(0)` delivers the pair inserted at
position `k`. -/
theorem addAll_get (mem : Nat → Entry) (es : List (Int × Nat)) :
    ((WaterLog.new mem).addAll es).size = min es.length CAPACITY
      ∧ (∀ i, i < ((WaterLog.new mem).addAll es).size → ∀ out,
          (((WaterLog.new mem).addAll es).get i out).1 = true
            ∧ es[es.length - CAPACITY + i]?
                = some ((((WaterLog.new mem).addAll es).get i out).2.timestamp,
                    (((WaterLog.new mem).addAll es).get i out).2.level))
      ∧ (∀ k, es.length = CAPACITY + k →
          ((WaterLog.new mem).addAll es).size = CAPACITY
            ∧ ∀ out, (((WaterLog.new mem).addAll es).get 0 out).1 = true
                ∧ es[k]? = some ((((WaterLog.new mem).addAll es).get 0 out).2.timestamp,
                    (((WaterLog.new mem).addAll es).get 0 out).2.level)) := by
  obtain ⟨hc, _, ht, hb⟩ := addAll_new_state mem es
  have hgen : ∀ i, i < ((WaterLog.new mem).addAll es).size → ∀ out,
      (((WaterLog.new mem).addAll es).get i out).1 = true
        ∧ es[es.length - CAPACITY + i]?
            = some ((((WaterLog.new mem).addAll es).get i out).2.timestamp,
                (((WaterLog.new mem).addAll es).get i out).2.level) := by
    intro i hi out
    have hi2 : i < ((WaterLog.new mem).addAll es).count := hi
    rw [get_eq, if_pos hi2]
    refine ⟨rfl, ?_⟩
    rw [hc] at hi2
    have hpos : (((WaterLog.new mem).addAll es).tail + i) % CAPACITY
        = (es.length - CAPACITY + i) % CAPACITY := by
      rw [ht]
      unfold CAPACITY
      omega
    simp only [hpos]
    exact hb _ (by omega) (by unfold CAPACITY at hi2 ⊢; omega)
  refine ⟨hc, hgen, ?_⟩
  intro k hk
  have hsz : ((WaterLog.new mem).addAll es).size = CAPACITY := by
    show ((WaterLog.new mem).addAll es).count = CAPACITY
    rw [hc]; omega
  refine ⟨hsz, fun out => ?_⟩
  have h0 := hgen 0 (by rw [hsz]; decide) out
  have hidx : es.length - CAPACITY + 0 = k := by omega
  rw [hidx] at h0
  exact h0

/-- Witness for C1: 102 insertions with levels 0, 1, ..., 101; `size()` is
100, `get(0)` succeeds and the pair at position 2 is what it delivers. -/
theorem addAll_get_witness :
    (countUp 102).length = CAPACITY + 2
      ∧ ((WaterLog.new zeroMem).addAll (countUp 102)).size = CAPACITY
      ∧ (((WaterLog.new zeroMem).addAll (countUp 102)).get 0 (zeroMem 0)).1 = true
      ∧ (countUp 102)[2]? = some
          ((((WaterLog.new zeroMem).addAll (countUp 102)).get 0 (zeroMem 0)).2.timestamp,
            (((WaterLog.new zeroMem).addAll (countUp 102)).get 0 (zeroMem 0)).2.level) :=
  have hlen : (countUp 102).length = CAPACITY + 2 := by
    rw [countUp, List.length_map, List.length_range]; rfl
  have h := (addAll_get zeroMem (countUp 102)).2.2 2 hlen
  ⟨hlen, h.1, (h.2 (zeroMem 0)).1, (h.2 (zeroMem 0)).2⟩

/-- Claim C2: for a log that the constructor, `add` and `clear` produced,
`saveToSpiffs(path)` on a working store returns `true`, and `loadFromSpiffs(path)`
of the file it wrote, into a fresh log, returns `true` and leaves the same
`head`, `tail` and `count` and, for every `i < count`, the same result of
`get(i)` as the original log (indeed the same content in every slot). -/
theorem save_load_roundtrip (L : Layout) (w : WaterLog) (fs : Spiffs) (path : String)
    (mem : Nat → Entry) (hw : Reachable L w) (hfs : fs.Working L path) :
    (w.saveToSpiffs L fs path).1 = true
      ∧ ((WaterLog.new mem).loadFromSpiffs L (w.saveToSpiffs L fs path).2 path).1 = true
      ∧ ((WaterLog.new mem).loadFromSpiffs L (w.saveToSpiffs L fs path).2 path).2.head = w.head
      ∧ ((WaterLog.new mem).loadFromSpiffs L (w.saveToSpiffs L fs path).2 path).2.tail = w.tail
      ∧ ((WaterLog.new mem).loadFromSpiffs L (w.saveToSpiffs L fs path).2 path).2.count = w.count
      ∧ (∀ i, i < w.count → ∀ out,
          ((WaterLog.new mem).loadFromSpiffs L (w.saveToSpiffs L fs path).2 path).2.get i out
            = w.get i out)
      ∧ (∀ i, i < CAPACITY →
          ((WaterLog.new mem).loadFromSpiffs L (w.saveToSpiffs L fs path).2 path).2.buffer i
            = w.buffer i) := by
  obtain ⟨hok, hmnt, hfile⟩ := save_working L w fs path hfs
  obtain ⟨hc, hh, ht⟩ := reachable_bounded L w hw
  have hok2 := reachable_entryOk L w hw
  have hlen : (rawBuffer L w.buffer CAPACITY).length = L.sizeofBuffer := by
    rw [length_rawBuffer, Layout.sizeofBuffer]
  have hload := load_sized L (WaterLog.new mem) (w.saveToSpiffs L fs path).2 path
    (toByte w.head) (toByte w.tail) (toByte w.count) (rawBuffer L w.buffer CAPACITY)
    hmnt hfile hlen
  have hbh : (toByte w.head).val = w.head := by
    unfold CAPACITY at hh; show w.head % 256 = w.head; omega
  have hbt : (toByte w.tail).val = w.tail := by
    unfold CAPACITY at ht; show w.tail % 256 = w.tail; omega
  have hbc : (toByte w.count).val = w.count := by
    unfold CAPACITY at hc; show w.count % 256 = w.count; omega
  rw [hbh, hbt, hbc, if_neg (by omega)] at hload
  have hslot : ∀ i, i < CAPACITY →
      storeBuffer L (WaterLog.new mem).buffer (rawBuffer L w.buffer CAPACITY) i = w.buffer i := by
    intro i hi
    rw [storeBuffer_covered L _ _ i hi hlen, rawBuffer_chunk L w.buffer CAPACITY i hi,
      decodeEntry_encodeEntry L _ (hok2 i hi)]
  rw [hload]
  refine ⟨hok, rfl, rfl, rfl, rfl, ?_, hslot⟩
  intro i hi out
  rw [get_eq, get_eq]
  simp only [if_pos hi]
  rw [hslot _ (Nat.mod_lt _ (by decide))]

/-- Witness for C2: the log after two readings, saved to and loaded from a
store in good order on the platform with a 64-bit `time_t`. -/
theorem save_load_roundtrip_witness :
    Reachable Layout.time64 twoReadings
      ∧ (flashWith []).Working Layout.time64 "/water.log"
      ∧ (twoReadings.saveToSpiffs Layout.time64 (flashWith []) "/water.log").1 = true
      ∧ ((WaterLog.new zeroMem).loadFromSpiffs Layout.time64
          (twoReadings.saveToSpiffs Layout.time64 (flashWith []) "/water.log").2
          "/water.log").2.count = 2 :=
  have hr : Reachable Layout.time64 twoReadings :=
    Reachable.add _ _ _
      (Reachable.add _ _ _ (Reachable.new zeroMem
        (fun _ _ => (by decide : EntryOk Layout.time64 { timestamp := 0, level := 0, padding := 0 }))) (by decide) (by decide))
      (by decide) (by decide)
  have hf : (flashWith []).Working Layout.time64 "/water.log" :=
    ⟨Or.inl rfl, rfl, fun _ => (by decide : max 1 Layout.time64.sizeofBuffer ≤ 4096)⟩
  have h := save_load_roundtrip Layout.time64 twoReadings (flashWith []) "/water.log" zeroMem hr hf
  ⟨hr, hf, h.1, h.2.2.2.2.1.trans (by decide)⟩

/-! ## The ring relation between the three indices -/

section Ring

theorem call_ring (w : WaterLog) (c : Call)
    (hb : w.Bounded) (hr : w.head = (w.tail + w.count) % CAPACITY) :
    (w.call c).1.Bounded ∧ (w.call c).1.head = ((w.call c).1.tail + (w.call c).1.count) % CAPACITY := by
  cases c with
  | add ts lvl =>
    refine ⟨add_bounded w ts lvl hb, ?_⟩
    show (w.add ts lvl).head = ((w.add ts lvl).tail + (w.add ts lvl).count) % CAPACITY
    obtain ⟨hc, hh, ht⟩ := hb
    rw [add_head]
    by_cases hlt : w.count < CAPACITY
    · obtain ⟨h1, h2⟩ := add_count_lt w ts lvl hlt
      rw [h1, h2, hr]
      unfold CAPACITY at *
      omega
    · obtain ⟨h1, h2⟩ := add_count_full w ts lvl hlt
      rw [h1, h2, hr]
      unfold CAPACITY at *
      omega
  | get idx out => exact ⟨hb, hr⟩
  | size => exact ⟨hb, hr⟩
  | clear =>
    refine ⟨?_, rfl⟩
    simp [WaterLog.call, WaterLog.Bounded, WaterLog.clear, CAPACITY]

theorem calls_ring (cs : List Call) (w : WaterLog)
    (hb : w.Bounded) (hr : w.head = (w.tail + w.count) % CAPACITY) :
    (w.calls cs).Bounded ∧ (w.calls cs).head = ((w.calls cs).tail + (w.calls cs).count) % CAPACITY := by
  induction cs generalizing w with
  | nil => exact ⟨hb, hr⟩
  | cons c cs ih =>
    obtain ⟨hb2, hr2⟩ := call_ring w c hb hr
    exact ih (w.call c).1 hb2 hr2

end Ring

/-- Claim C20: in every state that a sequence of method calls (`add`, `clear`,
and the `const` methods `get` and `size`) produces from the freshly constructed
log, `head = (tail + count) mod CAPACITY`; and `head = tail` exactly when the
log is empty (`count = 0`) or full (`count = CAPACITY`). -/
theorem head_is_tail_plus_count (mem : Nat → Entry) (cs : List Call) :
    ((WaterLog.new mem).calls cs).head
        = (((WaterLog.new mem).calls cs).tail + ((WaterLog.new mem).calls cs).count) % CAPACITY
      ∧ (((WaterLog.new mem).calls cs).head = ((WaterLog.new mem).calls cs).tail
          ↔ (((WaterLog.new mem).calls cs).count = 0
              ∨ ((WaterLog.new mem).calls cs).count = CAPACITY)) := by
  obtain ⟨⟨hc, hh, ht⟩, hr⟩ := calls_ring cs (WaterLog.new mem)
    (by simp [WaterLog.Bounded, WaterLog.new, CAPACITY]) rfl
  refine ⟨hr, ?_⟩
  rw [hr]
  unfold CAPACITY at *
  omega

/-! ## The CSV dump -/

section Dump

end Dump

/-- Evaluation for claim C12: with the time zone that `main.cpp` configures
(`gmtOffset_sec = 3600`, no daylight saving in force), the line dumped for the
reading taken at 1700000000 (2023-11-14 22:13:20 UTC) shows 23:13:20, the
local time; the UTC breakdown of the same timestamp gives 22:13:20. -/
theorem dump_prints_local_time :
    oneReading.dumpCSVToTelnet (localtime_r (fun _ => gmtOffset_sec))
        = ["datetime, level", "2023-11-14 23:13:20,42"]
      ∧ oneReading.dumpCSVToTelnet gmtime_r
        = ["datetime, level", "2023-11-14 22:13:20,42"] := by
  constructor <;> decide

/-! ## Saving on a store that writes short -/

section ShortWrites

theorem save_opened (L : Layout) (w : WaterLog) (fs : Spiffs) (path : String)
    (hm : fs.mountable = true) (hw : fs.writable path = true) :
    w.saveToSpiffs L fs path =
      (((rawBuffer L w.buffer CAPACITY).take (fs.granted 3)).length == L.sizeofBuffer,
        { fs with
          files := Function.update fs.files path
            (some ([toByte w.head].take (fs.granted 0) ++ [toByte w.tail].take (fs.granted 1)
              ++ [toByte w.count].take (fs.granted 2)
              ++ (rawBuffer L w.buffer CAPACITY).take (fs.granted 3))) }) := by
  have hb : fs.begin true = (true, fs) := by
    unfold Spiffs.begin
    rw [if_pos hm]
  unfold WaterLog.saveToSpiffs
  simp only [hb, hw, Bool.not_true, Bool.false_eq_true, if_false, Spiffs.write]

theorem save_closed (L : Layout) (w : WaterLog) (fs : Spiffs) (path : String)
    (h : (fs.begin true).1 = false ∨ (fs.begin true).2.writable path = false) :
    (w.saveToSpiffs L fs path).1 = false := by
  unfold WaterLog.saveToSpiffs
  rcases h with h | h
  · simp only [h, Bool.not_false, if_true]
  · by_cases hb : (fs.begin true).1 = true
    · simp only [hb, h, Bool.not_true, Bool.not_false, Bool.false_eq_true, if_false, if_true]
    · have hb2 : (fs.begin true).1 = false := by
        cases hx : (fs.begin true).1
        · rfl
        · exact absurd hx hb
      simp only [hb2, Bool.not_false, if_true]

theorem raw_take_time64 (buf : Nat → Entry) :
    (rawBuffer Layout.time64 buf CAPACITY).take 4096 = rawBuffer Layout.time64 buf CAPACITY :=
  List.take_of_length_le (by rw [length_rawBuffer]; decide)

end ShortWrites

/-- Evaluation for claim C13: on a mounted store whose first `write` call (the
one for `head`) writes nothing while the others write everything, `saveToSpiffs`
returns `true`, and the file it leaves starts with the `tail` byte, has 1602
bytes where `expectedSize` is 1603, and is refused by `loadFromSpiffs`. -/
theorem save_true_without_head_byte :
    (twoReadings.saveToSpiffs Layout.time64 (flashDropping 0) "/water.log").1 = true
      ∧ (twoReadings.saveToSpiffs Layout.time64 (flashDropping 0) "/water.log").2.files
            "/water.log"
          = some (toByte twoReadings.tail :: toByte twoReadings.count
              :: rawBuffer Layout.time64 twoReadings.buffer CAPACITY)
      ∧ (toByte twoReadings.tail :: toByte twoReadings.count
            :: rawBuffer Layout.time64 twoReadings.buffer CAPACITY).length = 1602
      ∧ Layout.time64.expectedSize = 1603
      ∧ ((WaterLog.new zeroMem).loadFromSpiffs Layout.time64
          (twoReadings.saveToSpiffs Layout.time64 (flashDropping 0) "/water.log").2
          "/water.log").1 = false := by
  have hsave := save_opened Layout.time64 twoReadings (flashDropping 0) "/water.log" rfl rfl
  have hg0 : (flashDropping 0).granted 0 = 0 := rfl
  have hg1 : (flashDropping 0).granted 1 = 4096 := rfl
  have hg2 : (flashDropping 0).granted 2 = 4096 := rfl
  have hg3 : (flashDropping 0).granted 3 = 4096 := rfl
  rw [hg0, hg1, hg2, hg3, raw_take_time64] at hsave
  have hlen : (toByte twoReadings.tail :: toByte twoReadings.count
      :: rawBuffer Layout.time64 twoReadings.buffer CAPACITY).length = 1602 := by
    rw [List.length_cons, List.length_cons, length_rawBuffer]
    decide
  have hfile : (twoReadings.saveToSpiffs Layout.time64 (flashDropping 0) "/water.log").2.files
      "/water.log" = some (toByte twoReadings.tail :: toByte twoReadings.count
        :: rawBuffer Layout.time64 twoReadings.buffer CAPACITY) := by
    rw [hsave]
    simp only [Function.update_same, List.take_zero, List.nil_append, List.take_succ_cons,
      List.take_nil, List.cons_append]
  refine ⟨?_, hfile, hlen, by decide, ?_⟩
  · rw [hsave]
    simp only [length_rawBuffer]
    decide
  · rw [load_wrong_size Layout.time64 _ _ "/water.log" _ hfile (by rw [hlen]; decide)]

/-- Evaluation for claim C14: on a mounted store whose third `write` call (the
one for `count`) writes nothing while the others write everything, 1602 bytes
are written in all where `3 + CAPACITY * sizeof(Entry)` is 1603, and
`saveToSpiffs` returns `true`. -/
theorem save_true_on_short_total :
    (twoReadings.saveToSpiffs Layout.time64 (flashDropping 2) "/water.log").1 = true
      ∧ (∃ content,
          (twoReadings.saveToSpiffs Layout.time64 (flashDropping 2) "/water.log").2.files
              "/water.log" = some content
            ∧ content.length = 1602)
      ∧ 3 + CAPACITY * Layout.time64.sizeofEntry = 1603 := by
  have hsave := save_opened Layout.time64 twoReadings (flashDropping 2) "/water.log" rfl rfl
  have hg0 : (flashDropping 2).granted 0 = 4096 := rfl
  have hg1 : (flashDropping 2).granted 1 = 4096 := rfl
  have hg2 : (flashDropping 2).granted 2 = 0 := rfl
  have hg3 : (flashDropping 2).granted 3 = 4096 := rfl
  rw [hg0, hg1, hg2, hg3, raw_take_time64] at hsave
  refine ⟨?_, ⟨toByte twoReadings.head :: toByte twoReadings.tail
      :: rawBuffer Layout.time64 twoReadings.buffer CAPACITY, ?_, ?_⟩, by decide⟩
  · rw [hsave]
    simp only [length_rawBuffer]
    decide
  · rw [hsave]
    simp only [Function.update_same, List.take_zero, List.append_nil, List.take_succ_cons,
      List.take_nil, List.cons_append, List.nil_append]
  · rw [List.length_cons, List.length_cons, length_rawBuffer]
    decide

/-! ## The line accumulator -/

section Lines

theorem cStringFrom_agree (buf : Int → Byte) (l : List Byte) (fuel i : Nat)
    (hfuel : l.length < fuel)
    (hag : ∀ j, j < l.length → l[j]? = some (buf ((i + j : Nat) : Int)))
    (hz : buf ((i + l.length : Nat) : Int) = 0) :
    cStringFrom buf fuel i = l.takeWhile (fun b => b ≠ 0) := by
  induction l generalizing fuel i with
  | nil =>
    cases fuel with
    | zero => simp at hfuel
    | succ fuel =>
      simp only [List.length_nil, Nat.add_zero] at hz
      simp [cStringFrom, hz]
  | cons a l ih =>
    cases fuel with
    | zero => simp at hfuel
    | succ fuel =>
      have ha : a = buf ((i : Nat) : Int) := by
        have := hag 0 (by simp)
        simpa using this
      unfold cStringFrom
      by_cases h0 : buf ((i : Nat) : Int) = 0
      · rw [if_pos h0, List.takeWhile_cons]
        simp [ha, h0]
      · rw [if_neg h0, List.takeWhile_cons]
        have hrest := ih fuel (i + 1) (by simp only [List.length_cons] at hfuel; omega)
          (by
            intro j hj
            have := hag (j + 1) (by simp only [List.length_cons]; omega)
            rw [List.getElem?_cons_succ] at this
            rw [this]
            congr 3
            omega)
          (by
            rw [← hz]
            congr 2
            simp only [List.length_cons]
            omega)
        rw [hrest]
        simp [ha, h0]

theorem holds_nil (s : LineInput) (h0 : s.inputIndex = 0) : s.Holds [] := by
  refine ⟨by simpa using h0, ?_⟩
  intro j hj
  simp at hj

theorem holds_snoc (s : LineInput) (kept : List Byte) (c : Byte) (h : s.Holds kept) :
    LineInput.Holds
      { inputBuffer := Function.update s.inputBuffer s.inputIndex c,
        inputIndex := s.inputIndex + 1 } (kept ++ [c]) := by
  obtain ⟨hidx, hbuf⟩ := h
  refine ⟨?_, ?_⟩
  · simp only [List.length_append, List.length_singleton]
    push_cast
    omega
  · intro j hj
    simp only [List.length_append, List.length_singleton] at hj
    by_cases hlt : j < kept.length
    · rw [List.getElem?_append_left hlt, hbuf j hlt]
      have hne : ((j : Nat) : Int) ≠ s.inputIndex := by omega
      simp only [Function.update_noteq hne]
    · have hj2 : j = kept.length := by omega
      subst hj2
      rw [List.getElem?_append_right (le_refl _)]
      rw [← hidx]
      simp only [Function.update_same, Nat.sub_self, List.getElem?_cons_zero]

theorem feed_newline (s : LineInput) (kept : List Byte) (h : s.Holds kept)
    (hlen : kept.length ≤ MAX_USER_INPUT - 1) :
    (feed s 10).state.inputIndex = 0
      ∧ (feed s 10).line
          = (if kept = [] then none else some (kept.takeWhile (fun b => b ≠ 0))) := by
  obtain ⟨hidx, hbuf⟩ := h
  unfold feed
  rw [if_pos rfl]
  by_cases hk : kept = []
  · subst hk
    have h0 : ¬ s.inputIndex > 0 := by simp at hidx; omega
    rw [if_neg h0, if_pos rfl]
    simp at hidx
    exact ⟨hidx, rfl⟩
  · have hpos : s.inputIndex > 0 := by
      have : 0 < kept.length := List.length_pos.mpr hk
      omega
    rw [if_pos hpos, if_neg hk]
    refine ⟨rfl, ?_⟩
    simp only [Option.some.injEq]
    unfold cString
    apply cStringFrom_agree _ kept MAX_USER_INPUT 0 (by unfold MAX_USER_INPUT at *; omega)
    · intro j hj
      rw [hbuf j hj]
      have hne : ((0 + j : Nat) : Int) ≠ s.inputIndex := by omega
      rw [Function.update_noteq hne]
      simp
    · have he : ((0 + kept.length : Nat) : Int) = s.inputIndex := by omega
      rw [he, Function.update_same]

theorem feed_other (s : LineInput) (kept : List Byte) (c : Byte) (h : s.Holds kept)
    (hc : c ≠ 10) :
    (feed s c).line = none
      ∧ (feed s c).state.Holds
          (if c = 13 ∨ c = 10 then kept
           else if kept.length < MAX_USER_INPUT - 1 then kept ++ [c] else kept) := by
  have hidx := h.1
  unfold feed
  rw [if_neg hc]
  by_cases hlt : s.inputIndex < (MAX_USER_INPUT : Int) - 1
  · rw [if_pos hlt]
    by_cases h13 : c = 13
    · rw [if_neg (by simpa using h13), if_pos (Or.inl h13)]
      exact ⟨rfl, h⟩
    · have hlen : kept.length < MAX_USER_INPUT - 1 := by
        unfold MAX_USER_INPUT at *; omega
      rw [if_pos h13, if_neg (by simp [h13, hc]), if_pos hlen]
      exact ⟨rfl, holds_snoc s kept c h⟩
  · rw [if_neg hlt]
    refine ⟨rfl, ?_⟩
    have hlen : ¬ kept.length < MAX_USER_INPUT - 1 := by
      unfold MAX_USER_INPUT at *; omega
    by_cases hcr : c = 13 ∨ c = 10
    · rw [if_pos hcr]; exact h
    · rw [if_neg hcr, if_neg hlen]; exact h

theorem keptBytes_length_le (pending : List Byte) :
    (keptBytes pending).length ≤ MAX_USER_INPUT - 1 := by
  unfold keptBytes
  rw [List.length_take]
  exact Nat.min_le_left _ _

theorem keptBytes_snoc (pending : List Byte) (c : Byte) :
    keptBytes (pending ++ [c]) =
      if c = 13 ∨ c = 10 then keptBytes pending
      else if (keptBytes pending).length < MAX_USER_INPUT - 1 then keptBytes pending ++ [c]
      else keptBytes pending := by
  unfold keptBytes
  rw [List.filter_append]
  by_cases hc : c = 13 ∨ c = 10
  · rw [if_pos hc]
    have : List.filter (fun b => decide (b ≠ 13 ∧ b ≠ 10)) [c] = [] := by
      rcases hc with hc | hc <;> subst hc <;> rfl
    rw [this, List.append_nil]
  · rw [if_neg hc]
    have hkeep : List.filter (fun b => decide (b ≠ 13 ∧ b ≠ 10)) [c] = [c] := by
      have : (c ≠ 13 ∧ c ≠ 10) := by
        constructor
        · intro h; exact hc (Or.inl h)
        · intro h; exact hc (Or.inr h)
      simp [List.filter_cons, this]
    rw [hkeep]
    by_cases hlt : (List.take (MAX_USER_INPUT - 1)
        (List.filter (fun b => decide (b ≠ 13 ∧ b ≠ 10)) pending)).length < MAX_USER_INPUT - 1
    · rw [if_pos hlt]
      rw [List.length_take] at hlt
      have hlen : (List.filter (fun b => decide (b ≠ 13 ∧ b ≠ 10)) pending).length
          < MAX_USER_INPUT - 1 := by omega
      have h1 : List.take (MAX_USER_INPUT - 1)
          (List.filter (fun b => decide (b ≠ 13 ∧ b ≠ 10)) pending)
          = List.filter (fun b => decide (b ≠ 13 ∧ b ≠ 10)) pending :=
        List.take_of_length_le (by omega)
      have h2 : List.take (MAX_USER_INPUT - 1)
          (List.filter (fun b => decide (b ≠ 13 ∧ b ≠ 10)) pending ++ [c])
          = List.filter (fun b => decide (b ≠ 13 ∧ b ≠ 10)) pending ++ [c] :=
        List.take_of_length_le (by rw [List.length_append, List.length_singleton]; omega)
      rw [h1, h2]
    · rw [if_neg hlt]
      rw [List.length_take] at hlt
      exact List.take_append_of_le_length (by omega)

theorem completedLines_cons (s : LineInput) (c : Byte) (cs : List Byte) :
    completedLines s (c :: cs)
      = (match (feed s c).line with
          | none => completedLines (feed s c).state cs
          | some l => l :: completedLines (feed s c).state cs) := by
  unfold completedLines
  rw [feedTrace, List.filterMap_cons]
  cases (feed s c).line <;> rfl

theorem completedLines_holds (cs : List Byte) (s : LineInput) (pending : List Byte)
    (h : s.Holds (keptBytes pending)) :
    completedLines s cs = expectedLines pending cs := by
  induction cs generalizing s pending with
  | nil => rfl
  | cons c cs ih =>
    rw [completedLines_cons]
    unfold expectedLines
    by_cases hc : c = 10
    · subst hc
      obtain ⟨h0, hline⟩ := feed_newline s (keptBytes pending) h (keptBytes_length_le pending)
      have hnext : (feed s 10).state.Holds (keptBytes []) := holds_nil _ h0
      rw [if_pos rfl, hline]
      by_cases hk : keptBytes pending = []
      · rw [if_pos hk, if_pos hk]
        exact ih _ [] hnext
      · rw [if_neg hk, if_neg hk]
        simp only
        rw [ih _ [] hnext]
    · obtain ⟨hline, hst⟩ := feed_other s (keptBytes pending) c h hc
      rw [← keptBytes_snoc] at hst
      rw [if_neg hc, hline]
      exact ih _ (pending ++ [c]) hst

theorem feed_bounds (s : LineInput) (c : Byte)
    (h : 0 ≤ s.inputIndex ∧ s.inputIndex ≤ (MAX_USER_INPUT : Int) - 1) :
    (0 ≤ (feed s c).state.inputIndex ∧ (feed s c).state.inputIndex ≤ (MAX_USER_INPUT : Int) - 1)
      ∧ ∀ i ∈ (feed s c).stores, 0 ≤ i ∧ i < (MAX_USER_INPUT : Int) := by
  obtain ⟨hlo, hhi⟩ := h
  unfold feed
  unfold MAX_USER_INPUT at *
  split_ifs <;> simp <;> omega

theorem feedTrace_bounds (cs : List Byte) (s : LineInput)
    (h : 0 ≤ s.inputIndex ∧ s.inputIndex ≤ (MAX_USER_INPUT : Int) - 1) :
    ∀ f ∈ feedTrace s cs,
      (0 ≤ f.state.inputIndex ∧ f.state.inputIndex ≤ (MAX_USER_INPUT : Int) - 1)
        ∧ ∀ i ∈ f.stores, 0 ≤ i ∧ i < (MAX_USER_INPUT : Int) := by
  induction cs generalizing s with
  | nil =>
    intro f hf
    simp [feedTrace] at hf
  | cons c cs ih =>
    intro f hf
    rw [feedTrace, List.mem_cons] at hf
    rcases hf with hf | hf
    · subst hf
      exact feed_bounds s c h
    · exact ih (feed s c).state (feed_bounds s c h).1 f hf

end Lines

/-- Claim C19: from cursor 0, after every byte of every byte sequence the
cursor `inputIndex` is in `[0, MAX_USER_INPUT - 1]`, and every store into
`inputBuffer` (a character or the terminator) is at an index in
`[0, MAX_USER_INPUT)`. -/
theorem cursor_stays_in_array (mem : Int → Byte) (cs : List Byte) (f : Fed)
    (hf : f ∈ feedTrace (LineInput.start mem) cs) :
    (0 ≤ f.state.inputIndex ∧ f.state.inputIndex ≤ (MAX_USER_INPUT : Int) - 1)
      ∧ ∀ i ∈ f.stores, 0 ≤ i ∧ i < (MAX_USER_INPUT : Int) :=
  feedTrace_bounds cs (LineInput.start mem) (by simp [LineInput.start, MAX_USER_INPUT]) f hf

/-- Witness for C19: the pass for the first of the two bytes `a`, `'\n'`. -/
theorem cursor_stays_in_array_witness :
    feed (LineInput.start (fun _ => 0)) 97 ∈ feedTrace (LineInput.start (fun _ => 0)) [97, 10]
      ∧ (feed (LineInput.start (fun _ => 0)) 97).state.inputIndex ≤ (MAX_USER_INPUT : Int) - 1 :=
  ⟨List.mem_cons_self _ _,
    (cursor_stays_in_array (fun _ => 0) [97, 10] _ (List.mem_cons_self _ _)).1.2⟩

/-- Counterexample for claim C16: the bytes `a`, NUL, `b`, `'\n'`. The bytes
received before the `'\n'` that are neither `'\r'` nor `'\n'` are `a`, NUL, `b`;
the string handed to `set_input_string` is `a`. -/
theorem line_stops_at_nul :
    completedLines (LineInput.start (fun _ => 0)) [97, 0, 98, 10] = [[97]]
      ∧ keptBytes [97, 0, 98] = [97, 0, 98] := by
  decide

/-- Claim C16, amended: a `'\r'` changes neither the array nor the cursor and
completes nothing; a `'\n'` at cursor 0 completes no line and prints one
prompt; a `'\n'` at a cursor above 0 completes one line, prints one prompt and
puts the cursor at 0; and from cursor 0, for every byte sequence, the completed
lines are, for each `'\n'` before which some byte was kept, the first
`MAX_USER_INPUT - 1` of the bytes received since the previous `'\n'` that are
neither `'\r'` nor `'\n'`, in arrival order, up to the first NUL among them. -/
theorem line_accumulator_spec (mem : Int → Byte) (cs : List Byte) :
    (∀ s : LineInput, (feed s 13).state = s ∧ (feed s 13).line = none
        ∧ (feed s 13).prompts = 0 ∧ (feed s 13).stores = [])
      ∧ (∀ s : LineInput, s.inputIndex = 0 →
          (feed s 10).state = s ∧ (feed s 10).line = none ∧ (feed s 10).prompts = 1)
      ∧ (∀ s : LineInput, 0 < s.inputIndex →
          (∃ l, (feed s 10).line = some l) ∧ (feed s 10).state.inputIndex = 0
            ∧ (feed s 10).prompts = 1)
      ∧ completedLines (LineInput.start mem) cs = expectedLines [] cs := by
  refine ⟨?_, ?_, ?_, completedLines_holds cs _ [] (holds_nil _ rfl)⟩
  · intro s
    unfold feed
    rw [if_neg (by decide)]
    split_ifs <;> simp_all
  · intro s h0
    unfold feed
    rw [if_pos rfl, if_neg (by omega)]
    exact ⟨rfl, rfl, rfl⟩
  · intro s hpos
    unfold feed
    rw [if_pos rfl, if_pos hpos]
    exact ⟨⟨_, rfl⟩, rfl, rfl⟩

/-- Witness for C16: the bytes `h`, `i`, `'\r'`, `'\n'`, `'\n'`, `o`, `k`, `'\n'`
complete the lines `hi` and `ok`. -/
theorem line_accumulator_spec_witness :
    completedLines (LineInput.start (fun _ => 0)) [104, 105, 13, 10, 10, 111, 107, 10]
      = [[104, 105], [111, 107]] :=
  (line_accumulator_spec (fun _ => 0) [104, 105, 13, 10, 10, 111, 107, 10]).2.2.2.trans
    (by decide)

section Probe

theorem scanProbe_quiet (L : Layout) (m : Meter) (s : Sample) (h : detectsEdge L m s = false) :
    (scanProbe L m s).2 = none
      ∧ (scanProbe L m s).1.meter_pulses = m.meter_pulses
      ∧ (scanProbe L m s).1.meter_reading = m.meter_reading
      ∧ (scanProbe L m s).1.meter_reading_previous = m.meter_reading_previous
      ∧ (scanProbe L m s).1.waterlog = m.waterlog := by
  unfold detectsEdge at h
  unfold scanProbe
  by_cases hg : s.millisCheck > toUnsigned L.ulongMod m.timestamp
  · have hp : ¬ s.pin ≠ m.meter_probe_previous := by
      intro hne
      simp [hg, hne] at h
    rw [if_pos hg]
    simp [hp]
  · rw [if_neg hg]
    exact ⟨rfl, rfl, rfl, rfl, rfl⟩

theorem scanProbe_edge (L : Layout) (m : Meter) (s : Sample) (h : detectsEdge L m s = true) :
    (scanProbe L m s).1.meter_pulses = (m.meter_pulses + 1) % L.ulongMod
      ∧ (scanProbe L m s).1.meter_reading = (m.meter_pulses + 1) % L.ulongMod / 2
      ∧ ((m.meter_pulses + 1) % L.ulongMod / 2 ≠ m.meter_reading_previous →
          (scanProbe L m s).2 = some (s.now, (m.meter_pulses + 1) % L.ulongMod / 2)
            ∧ (scanProbe L m s).1.meter_reading_previous = (m.meter_pulses + 1) % L.ulongMod / 2
            ∧ (scanProbe L m s).1.waterlog
                = m.waterlog.add s.now ((m.meter_pulses + 1) % L.ulongMod / 2))
      ∧ ((m.meter_pulses + 1) % L.ulongMod / 2 = m.meter_reading_previous →
          (scanProbe L m s).2 = none
            ∧ (scanProbe L m s).1.meter_reading_previous = m.meter_reading_previous
            ∧ (scanProbe L m s).1.waterlog = m.waterlog) := by
  unfold detectsEdge at h
  simp only [Bool.and_eq_true, decide_eq_true_eq] at h
  obtain ⟨hg, hp⟩ := h
  have hshift : ((m.meter_pulses + 1) % L.ulongMod) >>> 1
      = (m.meter_pulses + 1) % L.ulongMod / 2 := by
    rw [Nat.shiftRight_eq_div_pow, pow_one]
  unfold scanProbe
  rw [if_pos hg]
  simp only [hp, ne_eq, not_false_eq_true, if_true, hshift]
  by_cases hr : (m.meter_pulses + 1) % L.ulongMod / 2 = m.meter_reading_previous
  · simp only [hr, not_true_eq_false, if_false]
    simp
  · simp only [hr, not_false_eq_true, if_true]
    simp

theorem scanAll_pulses (L : Layout) (ss : List Sample) (m : Meter)
    (hlt : m.meter_pulses + edgeCount L m ss < L.ulongMod) :
    (scanAll L m ss).1.meter_pulses = m.meter_pulses + edgeCount L m ss
      ∧ (edgeCount L m ss = 0 → (scanAll L m ss).1.meter_reading = m.meter_reading)
      ∧ (0 < edgeCount L m ss →
          (scanAll L m ss).1.meter_reading = (scanAll L m ss).1.meter_pulses / 2) := by
  induction ss generalizing m with
  | nil => exact ⟨rfl, fun _ => rfl, fun h => absurd h (Nat.lt_irrefl 0)⟩
  | cons s ss ih =>
    simp only [scanAll, edgeCount] at hlt ⊢
    cases hd : detectsEdge L m s with
    | false =>
      obtain ⟨_, hp, hr, _, _⟩ := scanProbe_quiet L m s hd
      simp only [hd, Bool.false_eq_true, if_false, Nat.zero_add] at hlt ⊢
      obtain ⟨h1, h2, h3⟩ := ih (scanProbe L m s).1 (by rw [hp]; exact hlt)
      exact ⟨by rw [h1, hp], fun h => by rw [h2 h, hr], h3⟩
    | true =>
      obtain ⟨hp, hr, _, _⟩ := scanProbe_edge L m s hd
      simp only [hd, if_true] at hlt ⊢
      have hmod : (m.meter_pulses + 1) % L.ulongMod = m.meter_pulses + 1 :=
        Nat.mod_eq_of_lt (by omega)
      rw [hmod] at hp hr
      obtain ⟨h1, h2, h3⟩ := ih (scanProbe L m s).1 (by rw [hp]; omega)
      refine ⟨by rw [h1, hp]; omega, fun h => by omega, fun _ => ?_⟩
      by_cases he : edgeCount L (scanProbe L m s).1 ss = 0
      · rw [h2 he, h1, he, hr, hp]
      · exact h3 (by omega)

theorem scanAll_calls (L : Layout) (ss : List Sample) (m : Meter)
    (hprev : m.meter_reading_previous = m.meter_pulses / 2)
    (hlt : m.meter_pulses + edgeCount L m ss < L.ulongMod) :
    ((scanAll L m ss).2.map Prod.snd
        = List.range' (m.meter_pulses / 2 + 1)
            ((m.meter_pulses + edgeCount L m ss) / 2 - m.meter_pulses / 2))
      ∧ (scanAll L m ss).1.waterlog = m.waterlog.addAll (scanAll L m ss).2 := by
  induction ss generalizing m with
  | nil =>
    simp only [scanAll, edgeCount, Nat.add_zero, Nat.sub_self, List.map_nil, List.range'_zero,
      WaterLog.addAll, List.foldl_nil, and_self]
  | cons s ss ih =>
    simp only [scanAll, edgeCount] at hlt ⊢
    cases hd : detectsEdge L m s with
    | false =>
      obtain ⟨hc, hp, _, hpr, hw⟩ := scanProbe_quiet L m s hd
      simp only [hd, Bool.false_eq_true, if_false, Nat.zero_add] at hlt ⊢
      obtain ⟨h1, h2⟩ := ih (scanProbe L m s).1 (by rw [hpr, hp]; exact hprev)
        (by rw [hp]; exact hlt)
      rw [hp] at h1
      rw [hw] at h2
      rw [hc]
      exact ⟨h1, h2⟩
    | true =>
      obtain ⟨hp, _, hchg, hsame⟩ := scanProbe_edge L m s hd
      simp only [hd, if_true] at hlt ⊢
      have hmod : (m.meter_pulses + 1) % L.ulongMod = m.meter_pulses + 1 :=
        Nat.mod_eq_of_lt (by omega)
      rw [hmod] at hp hchg hsame
      by_cases hr : (m.meter_pulses + 1) / 2 = m.meter_reading_previous
      · obtain ⟨hc, hpr, hw⟩ := hsame hr
        obtain ⟨h1, h2⟩ := ih (scanProbe L m s).1 (by rw [hpr, hp, hr]) (by rw [hp]; omega)
        rw [hp] at h1
        rw [hw] at h2
        rw [hc]
        refine ⟨?_, h2⟩
        simp only [Option.toList, List.nil_append]
        rw [h1]
        have e1 : (m.meter_pulses + 1) / 2 = m.meter_pulses / 2 := by omega
        have e2 : m.meter_pulses + 1 + edgeCount L (scanProbe L m s).1 ss
            = m.meter_pulses + (1 + edgeCount L (scanProbe L m s).1 ss) := by omega
        rw [e1, e2]
      · obtain ⟨hc, hpr, hw⟩ := hchg hr
        obtain ⟨h1, h2⟩ := ih (scanProbe L m s).1 (by rw [hpr, hp]) (by rw [hp]; omega)
        rw [hp] at h1
        rw [hw] at h2
        rw [hc]
        refine ⟨?_, ?_⟩
        · simp only [Option.toList, List.singleton_append, List.map_cons]
          rw [h1]
          have e1 : (m.meter_pulses + 1) / 2 = m.meter_pulses / 2 + 1 := by omega
          have e2 : (m.meter_pulses + (1 + edgeCount L (scanProbe L m s).1 ss)) / 2
                - m.meter_pulses / 2
              = ((m.meter_pulses + 1 + edgeCount L (scanProbe L m s).1 ss) / 2
                - (m.meter_pulses / 2 + 1)) + 1 := by omega
          rw [e2, List.range'_succ, e1]
        · simp only [Option.toList, List.singleton_append]
          rw [h2]
          rfl

end Probe

/-- Claim C18: from the state after `setup` (reading, previous reading and
pulse count 0, empty log) and without a `set` command, after calls of
`scanProbe` of which `n` detected a probe edge, `n` below the number of values
of an `unsigned long`: the meter reading is `n / 2`, and exactly `n / 2` calls
of `waterlog.add` were made, with the levels 1, 2, ..., `n / 2` in that order
(the log is the fresh log after those calls). -/
theorem producer_records_changes (L : Layout) (mem : Nat → Entry) (pin : Int)
    (ss : List Sample) (hn : edgeCount L (Meter.start mem pin) ss < L.ulongMod) :
    (scanAll L (Meter.start mem pin) ss).1.meter_reading
        = edgeCount L (Meter.start mem pin) ss / 2
      ∧ (scanAll L (Meter.start mem pin) ss).2.map Prod.snd
          = List.range' 1 (edgeCount L (Meter.start mem pin) ss / 2)
      ∧ (scanAll L (Meter.start mem pin) ss).2.length = edgeCount L (Meter.start mem pin) ss / 2
      ∧ (scanAll L (Meter.start mem pin) ss).1.waterlog
          = (WaterLog.new mem).addAll (scanAll L (Meter.start mem pin) ss).2 := by
  have hlt : (Meter.start mem pin).meter_pulses + edgeCount L (Meter.start mem pin) ss
      < L.ulongMod := by
    show 0 + edgeCount L (Meter.start mem pin) ss < L.ulongMod
    omega
  obtain ⟨hp, hr0, hr1⟩ := scanAll_pulses L ss (Meter.start mem pin) hlt
  obtain ⟨hcalls, hlog⟩ := scanAll_calls L ss (Meter.start mem pin)
    (show (0 : Nat) = 0 / 2 from rfl) hlt
  have hp0 : (Meter.start mem pin).meter_pulses = 0 := rfl
  rw [hp0] at hcalls hp
  simp only [Nat.zero_add, Nat.zero_div, Nat.sub_zero] at hcalls hp
  refine ⟨?_, hcalls, ?_, hlog⟩
  · by_cases he : edgeCount L (Meter.start mem pin) ss = 0
    · rw [hr0 he, he]
      rfl
    · rw [hr1 (by omega), hp]
  · have := congrArg List.length hcalls
    rw [List.length_map, List.length_range'] at this
    exact this

/-- Witness for C18: five samples on which the pin alternates, each a detected
edge: the reading is 2 and the levels logged are 1, 2. -/
theorem producer_records_changes_witness :
    edgeCount Layout.time64 (Meter.start zeroMem 0) (alternating 5) < Layout.time64.ulongMod
      ∧ edgeCount Layout.time64 (Meter.start zeroMem 0) (alternating 5) = 5
      ∧ (scanAll Layout.time64 (Meter.start zeroMem 0) (alternating 5)).1.meter_reading = 2
      ∧ (scanAll Layout.time64 (Meter.start zeroMem 0) (alternating 5)).2.map Prod.snd = [1, 2] :=
  have hn : edgeCount Layout.time64 (Meter.start zeroMem 0) (alternating 5)
      < Layout.time64.ulongMod := by decide
  have h := producer_records_changes Layout.time64 zeroMem 0 (alternating 5) hn
  ⟨hn, by decide, h.1.trans (by decide), h.2.1.trans (by decide)⟩

/-- Counterexample for claim C17: with a 32-bit `unsigned long`, after
`handleSet(2147483648)` the pulse count is 0, not `2147483648 * 2`, and one
subsequent probe edge leaves the reading at 0, not at 2147483648. -/
theorem set_wraps_pulse_count :
    2147483648 < Layout.time64.ulongMod
      ∧ (handleSet Layout.time64 (Meter.start zeroMem 0) 2147483648).meter_reading = 2147483648
      ∧ (handleSet Layout.time64 (Meter.start zeroMem 0) 2147483648).meter_pulses = 0
      ∧ edgeCount Layout.time64 (handleSet Layout.time64 (Meter.start zeroMem 0) 2147483648)
          (alternating 1) = 1
      ∧ (scanAll Layout.time64 (handleSet Layout.time64 (Meter.start zeroMem 0) 2147483648)
          (alternating 1)).1.meter_reading = 0 := by
  decide

/-- Claim C17, amended: for every value `v` of an `unsigned long`, after
`handleSet(v)` the meter reading is `v`; when `2 * v` is below the number of
values of an `unsigned long` the pulse count is `v * 2` and `pulses >> 1` is
`v`; when `2 * v + 1` is below it, calls of `scanProbe` with one detected edge
leave the reading at `v`; when `2 * v + 2` is below it, calls with two detected
edges make it `v + 1`. -/
theorem set_then_edges (L : Layout) (m : Meter) (v : Nat) (ss : List Sample)
    (_hv : v < L.ulongMod) :
    (handleSet L m v).meter_reading = v
      ∧ (2 * v < L.ulongMod →
          (handleSet L m v).meter_pulses = v * 2 ∧ (handleSet L m v).meter_pulses >>> 1 = v)
      ∧ (2 * v + 1 < L.ulongMod → edgeCount L (handleSet L m v) ss = 1 →
          (scanAll L (handleSet L m v) ss).1.meter_reading = v)
      ∧ (2 * v + 2 < L.ulongMod → edgeCount L (handleSet L m v) ss = 2 →
          (scanAll L (handleSet L m v) ss).1.meter_reading = v + 1) := by
  have hpulses : 2 * v < L.ulongMod → (handleSet L m v).meter_pulses = v * 2 := by
    intro h
    show (v <<< 1) % L.ulongMod = v * 2
    rw [Nat.shiftLeft_eq, pow_one]
    exact Nat.mod_eq_of_lt (by omega)
  refine ⟨rfl, ?_, ?_, ?_⟩
  · intro h
    refine ⟨hpulses h, ?_⟩
    rw [hpulses h, Nat.shiftRight_eq_div_pow, pow_one]
    omega
  · intro h he
    have hp := hpulses (by omega)
    obtain ⟨h1, _, h3⟩ := scanAll_pulses L ss (handleSet L m v) (by rw [hp, he]; omega)
    rw [h3 (by omega), h1, hp, he]
    omega
  · intro h he
    have hp := hpulses (by omega)
    obtain ⟨h1, _, h3⟩ := scanAll_pulses L ss (handleSet L m v) (by rw [hp, he]; omega)
    rw [h3 (by omega), h1, hp, he]
    omega

/-- Witness for C17: `set 123` and then two alternating samples: the reading
becomes 124. -/
theorem set_then_edges_witness :
    123 < Layout.time64.ulongMod
      ∧ (scanAll Layout.time64 (handleSet Layout.time64 (Meter.start zeroMem 0) 123)
          (alternating 2)).1.meter_reading = 124 :=
  ⟨by decide,
    (set_then_edges Layout.time64 (Meter.start zeroMem 0) 123 (alternating 2) (by decide)).2.2.2
      (by decide) (by decide)⟩

end WaterGenie
